import Mathlib

/-!
Verification development for the douyin hot-list crawler.

This file gives a shallow embedding, in Lean 4, of the crawl orchestration
and resilience layer of the repository:

* a model of Python values (`PyVal`) as they appear in the JSON payloads the
  spider manipulates (floats are not part of the model; the payload domain is
  taken to be None / int / str / list / dict),
* the generic helpers of `src/spider/base_spider.py`
  (`retry_on_failure`, `safe_get_nested_value`, `clean_text`, `sanitize_url`),
* the cache and rate limiter of `src/utils/performance.py`
  (`CacheManager.get` / `CacheManager.set`, `RateLimiter.can_proceed`),
* the orchestrator of `src/spider/douyin_spider.py`
  (`_validate_hot_list_item`, `_process_video_detail`,
  `_process_hot_list_item`, `_fetch_video_detail` and the `crawl` loop).

Wall-clock time is passed explicitly wherever the source calls
`time.time()`; time values are modelled as integers (the source uses
real-valued seconds, but only their ordering and differences matter here);
sleeping is recorded as a count rather than performed.  Network and browser effects are supplied as explicit oracles.
-/

/-- Python values occurring in the spider's payloads.  `none` is Python's
`None`.  Floats are outside the model. -/
inductive PyVal : Type where
  | none : PyVal
  | int (n : Int) : PyVal
  | str (s : String) : PyVal
  | list (xs : List PyVal) : PyVal
  | dict (entries : List (String × PyVal)) : PyVal

/-- Subscript keys used with `data[key]`: strings or integers. -/
inductive PyKey : Type where
  | str (s : String) : PyKey
  | int (n : Int) : PyKey

/-- The exception classes caught by `safe_get_nested_value`
(`except (KeyError, IndexError, TypeError)` in `base_spider.py`). -/
inductive PyErr : Type where
  | keyError : PyErr
  | indexError : PyErr
  | typeError : PyErr

/-- First binding of a key in a Python dict (dicts are modelled as
insertion-ordered association lists with unique keys). -/
def pyDictLookup (entries : List (String × PyVal)) (k : String) : Option PyVal :=
  (entries.find? (fun p => p.1 = k)).map (fun p => p.2)

/-- Python list indexing including negative indices: `xs[n]` for `n < 0`
means `xs[len + n]`; out of range raises `IndexError`. -/
def pyListIndex (xs : List PyVal) (n : Int) : Except PyErr PyVal :=
  let i : Int := if n < 0 then (xs.length : Int) + n else n
  if h : 0 ≤ i ∧ i < (xs.length : Int) then
    Except.ok (xs.get ⟨i.toNat, by omega⟩)
  else
    Except.error PyErr.indexError

/-- Python string indexing: `s[n]` yields a one-character string. -/
def pyStrIndex (s : String) (n : Int) : Except PyErr PyVal :=
  let cs := s.data
  let i : Int := if n < 0 then (cs.length : Int) + n else n
  if h : 0 ≤ i ∧ i < (cs.length : Int) then
    Except.ok (PyVal.str (String.mk [cs.get ⟨i.toNat, by omega⟩]))
  else
    Except.error PyErr.indexError

/-- One subscript step `value[key]`, with Python's error behaviour:
missing dict key raises `KeyError`, bad list/str index raises `IndexError`,
everything else raises `TypeError`. -/
def pyIndex : PyVal → PyKey → Except PyErr PyVal
  | PyVal.dict es, PyKey.str k =>
      match pyDictLookup es k with
      | some v => Except.ok v
      | Option.none => Except.error PyErr.keyError
  | PyVal.dict _, PyKey.int _ => Except.error PyErr.keyError
  | PyVal.list xs, PyKey.int n => pyListIndex xs n
  | PyVal.list _, PyKey.str _ => Except.error PyErr.typeError
  | PyVal.str s, PyKey.int n => pyStrIndex s n
  | PyVal.str _, PyKey.str _ => Except.error PyErr.typeError
  | _, _ => Except.error PyErr.typeError

/-- Iterated subscripting `data[k1][k2]...[kn]`, stopping at the first
raised error. -/
def pyIndexPath : PyVal → List PyKey → Except PyErr PyVal
  | v, [] => Except.ok v
  | v, k :: ks =>
      match pyIndex v k with
      | Except.ok v2 => pyIndexPath v2 ks
      | Except.error e => Except.error e

/-- `BaseSpider.safe_get_nested_value` (`base_spider.py` lines 226-252):
walk the key path, returning `default` when any step raises
`KeyError`/`IndexError`/`TypeError`. -/
def safe_get_nested_value (data : PyVal) (keys : List PyKey) (default : PyVal) : PyVal :=
  match pyIndexPath data keys with
  | Except.ok v => v
  | Except.error _ => default

/-- Decidable test that the key path fails on `data` (some level missing). -/
def pathMissing (data : PyVal) (keys : List PyKey) : Bool :=
  match pyIndexPath data keys with
  | Except.ok _ => false
  | Except.error _ => true

/-- Whitespace for Python's `str.strip()` and the regex class `\s`
(ASCII subset; exotic unicode spaces are outside the model). -/
def isPySpace (c : Char) : Bool :=
  c = ' ' || c = '\t' || c = '\n' || c = '\r' || c = Char.ofNat 11 || c = Char.ofNat 12

/-- Character-list form of Python's `str.strip()`. -/
def stripChars (cs : List Char) : List Char :=
  ((cs.dropWhile isPySpace).reverse.dropWhile isPySpace).reverse

/-- Python's `str.strip()`. -/
def pyStrip (s : String) : String :=
  String.mk (stripChars s.data)

/-- Python's `str.startswith(p)`. -/
def pyStartsWith (s p : String) : Bool :=
  p.data.isPrefixOf s.data

/-- The apostrophe character (39) — used by Python `repr` of strings. -/
def pyQuote : Char := Char.ofNat 39

mutual

/-- Python `repr` for the modelled values.  String escaping and quote
selection inside `repr` are not modelled (plain apostrophe quoting is
used); this only affects the textual form of nested containers. -/
def pyRepr : PyVal → String
  | PyVal.none => "None"
  | PyVal.int n => toString n
  | PyVal.str s => String.mk (pyQuote :: s.data ++ [pyQuote])
  | PyVal.list xs => "[" ++ pyReprList xs ++ "]"
  | PyVal.dict es => "\x7b" ++ pyReprDict es ++ "\x7d"

/-- Comma-separated `repr`s of list elements. -/
def pyReprList : List PyVal → String
  | [] => ""
  | [x] => pyRepr x
  | x :: y :: xs => pyRepr x ++ ", " ++ pyReprList (y :: xs)

/-- Comma-separated `repr`s of dict entries. -/
def pyReprDict : List (String × PyVal) → String
  | [] => ""
  | [(k, v)] => String.mk (pyQuote :: k.data ++ [pyQuote]) ++ ": " ++ pyRepr v
  | (k, v) :: e :: es =>
      String.mk (pyQuote :: k.data ++ [pyQuote]) ++ ": " ++ pyRepr v ++ ", " ++
        pyReprDict (e :: es)

end

/-- Python's `str(x)`: identity on strings, `repr`-like otherwise. -/
def pyStr : PyVal → String
  | PyVal.str s => s
  | v => pyRepr v

/-- Python truthiness test (`if not x`): `None`, `0`, `""`, `[]`, `{}` are
falsy. -/
def pyFalsy : PyVal → Bool
  | PyVal.none => true
  | PyVal.int n => n = 0
  | PyVal.str s => s = ""
  | PyVal.list xs => xs.isEmpty
  | PyVal.dict es => es.isEmpty

/-- Value of one digit character. -/
def digitVal (c : Char) : Nat := c.toNat - 48

/-- Value of a nonempty all-digit run, most significant first. -/
def digitsVal (cs : List Char) : Nat :=
  cs.foldl (fun a c => a * 10 + digitVal c) 0

/-- Python's `int(str)` on the stripped text: optional sign then at least
one ASCII digit (digit-group underscores and unicode digits are outside
the model); anything else raises `ValueError`. -/
def parsePyInt (s : String) : Except Unit Int :=
  match (pyStrip s).data with
  | [] => Except.error ()
  | c :: rest =>
      if c = '+' then
        if rest ≠ [] ∧ rest.all Char.isDigit then Except.ok (digitsVal rest)
        else Except.error ()
      else if c = '-' then
        if rest ≠ [] ∧ rest.all Char.isDigit then Except.ok (-(digitsVal rest : Int))
        else Except.error ()
      else if (c :: rest).all Char.isDigit then Except.ok (digitsVal (c :: rest))
      else Except.error ()

/-- Python's `int(x)` on a payload value: ints pass through, strings are
parsed, everything else raises (`TypeError`/`ValueError`, both caught at the
call sites). -/
def pyToInt : PyVal → Except Unit Int
  | PyVal.int n => Except.ok n
  | PyVal.str s => parsePyInt s
  | _ => Except.error ()

/-- Character translation used by `BaseSpider.clean_text`: newline, carriage
return and tab become spaces; zero-width space (U+200B) and BOM (U+FEFF) are
removed; other characters pass through. -/
def cleanChar (c : Char) : Option Char :=
  if c = '\n' || c = '\r' || c = '\t' then some ' '
  else if c = Char.ofNat 0x200b || c = Char.ofNat 0xfeff then Option.none
  else some c

/-- Replacement of each maximal whitespace run by a single space
(the `re.sub(r"\s+", " ", text)` step); `prevSpace` says whether the
previous emitted character closed a run. -/
def collapseSpaces : List Char → Bool → List Char
  | [], _ => []
  | c :: cs, prevSpace =>
      if isPySpace c then
        if prevSpace then collapseSpaces cs true
        else ' ' :: collapseSpaces cs true
      else c :: collapseSpaces cs false

/-- `BaseSpider.clean_text` (`base_spider.py` lines 254-291): stringify
non-strings, strip, apply the replacement table, collapse whitespace runs,
strip again. -/
def clean_text (v : PyVal) : String :=
  let text := pyStr v
  let text := pyStrip text
  let text := String.mk (text.data.filterMap cleanChar)
  let text := String.mk (collapseSpaces text.data false)
  pyStrip text

/-- The `dangerous_chars` list of `BaseSpider.sanitize_url`:
double quote, apostrophe, angle brackets, backquote, newline, carriage
return, tab. -/
def dangerousChars : List Char :=
  ['"', Char.ofNat 39, '<', '>', Char.ofNat 96, '\n', '\r', '\t']

/-- One `url.replace(char, "")` step: removing every occurrence of a single
character. -/
def removeChar (s : String) (c : Char) : String :=
  String.mk (s.data.filter (fun a => a ≠ c))

/-- `BaseSpider.sanitize_url` (`base_spider.py` lines 293-322): strip the
input, reject anything not starting with `http://` or `https://`, then
delete every dangerous character. -/
def sanitize_url (url : String) : String :=
  let url := pyStrip url
  if pyStartsWith url "http://" || pyStartsWith url "https://" then
    dangerousChars.foldl removeChar url
  else ""

/-- Outcome of one run of the body wrapped by `retry_on_failure`:
either the attempt returned normally, or it raised an exception. -/
abbrev Attempt (E A : Type) := Except E A

/-- What a call through the retry wrapper produces: a returned value, a
re-raised operation exception, or the `raise last_exception` executed with
`last_exception` still `None` (Python turns raising `None` into a
`TypeError`). -/
inductive RetryResult (E A : Type) : Type where
  | ok (a : A) : RetryResult E A
  | raised (e : E) : RetryResult E A
  | raisedNone : RetryResult E A

/-- Observable trace of one call through the retry wrapper: its result,
how many times the wrapped operation was invoked, and how many
`time.sleep(delay)` pauses were performed. -/
structure RetryTrace (E A : Type) : Type where
  result : RetryResult E A
  calls : Nat
  sleeps : Nat

/-- The `raise last_exception` statement after the attempt loop. -/
def retryFallthrough {E A : Type} : Option E → RetryResult E A
  | some e => RetryResult.raised e
  | Option.none => RetryResult.raisedNone

/-- The attempt loop of `BaseSpider.retry_on_failure` (`base_spider.py`
lines 209-223), recursing on the number of remaining attempts; `attempt`
is the Python loop index and `last` the accumulated `last_exception`.
A sleep happens only when `attempt < max_retries - 1`, i.e. when further
attempts remain. -/
def retryAux {E A : Type} (op : Nat → Attempt E A) :
    Nat → Nat → Option E → RetryTrace E A
  | 0, _, last => ⟨retryFallthrough last, 0, 0⟩
  | r + 1, attempt, _ =>
      match op attempt with
      | Except.ok a => ⟨RetryResult.ok a, 1, 0⟩
      | Except.error e =>
          if r = 0 then ⟨RetryResult.raised e, 1, 0⟩
          else
            let t := retryAux op r (attempt + 1) (some e)
            ⟨t.result, t.calls + 1, t.sleeps + 1⟩

/-- `BaseSpider.retry_on_failure(max_retries, delay)` applied to an
operation whose `n`-th invocation behaves as `op n`. -/
def retry_on_failure {E A : Type} (op : Nat → Attempt E A) (maxRetries : Nat) :
    RetryTrace E A :=
  retryAux op maxRetries 0 Option.none

/-- One entry of `CacheManager._cache`: the stored value and the
`time.time()` at which `set` stored it. -/
structure CacheEntry (V : Type) : Type where
  value : V
  timestamp : ℤ

/-- State of a `CacheManager` (`performance.py` lines 326-409).  The dict is
an insertion-ordered association list; file persistence is a best-effort
side channel with no effect on the in-memory map and is not modelled. -/
structure CacheState (V : Type) : Type where
  maxSize : Nat
  ttl : ℤ
  cache : List (String × CacheEntry V)

/-- Python dict write `d[k] = v`: overwrite in place when the key exists,
append otherwise. -/
def pyDictSet {β : Type} (c : List (String × β)) (k : String) (v : β) :
    List (String × β) :=
  if c.any (fun p => p.1 = k) then
    c.map (fun p => if p.1 = k then (k, v) else p)
  else c ++ [(k, v)]

/-- Python dict delete `del d[k]` (dict keys are unique, so removing every
binding of `k` is the same operation). -/
def pyDictDel {β : Type} (c : List (String × β)) (k : String) :
    List (String × β) :=
  c.filter (fun p => p.1 ≠ k)

/-- Lookup in the cache's association list. -/
def cacheLookup {V : Type} (c : List (String × CacheEntry V)) (k : String) :
    Option (CacheEntry V) :=
  (c.find? (fun p => p.1 = k)).map (fun p => p.2)

/-- The scan done by `min(self._cache.keys(), key=lambda k: timestamp)`:
the first key (in insertion order) holding the minimal timestamp;
`min` only replaces its candidate on strictly smaller values. -/
def oldestKeyAux {V : Type} (k : String) (t : ℤ) :
    List (String × CacheEntry V) → String
  | [] => k
  | (k2, e) :: rest =>
      if e.timestamp < t then oldestKeyAux k2 e.timestamp rest
      else oldestKeyAux k t rest

/-- Key with the oldest timestamp (`none` on an empty dict, where Python's
`min` would raise). -/
def oldestKey {V : Type} : List (String × CacheEntry V) → Option String
  | [] => Option.none
  | (k, e) :: rest => some (oldestKeyAux k e.timestamp rest)

/-- `CacheManager.get` (`performance.py` lines 370-386) at wall-clock time
`now`: a hit within `ttl` returns the value; an expired entry is deleted and
`None` is returned; a miss returns `None`. -/
def cache_get {V : Type} (st : CacheState V) (k : String) (now : ℤ) :
    Option V × CacheState V :=
  match cacheLookup st.cache k with
  | some e =>
      if now - e.timestamp < st.ttl then (some e.value, st)
      else (Option.none, { st with cache := pyDictDel st.cache k })
  | Option.none => (Option.none, st)

/-- `CacheManager.set` (`performance.py` lines 388-409) at wall-clock time
`now`: when the dict already holds at least `max_size` entries the entry
with the oldest timestamp is deleted first (this check runs even when `k`
itself is being overwritten), then `k` is bound to the value with the
current time. -/
def cache_set {V : Type} (st : CacheState V) (k : String) (v : V) (now : ℤ) :
    CacheState V :=
  let c :=
    if st.cache.length ≥ st.maxSize then
      match oldestKey st.cache with
      | some ok => pyDictDel st.cache ok
      | Option.none => st.cache
    else st.cache
  { st with cache := pyDictSet c k ⟨v, now⟩ }

/-- State of a `RateLimiter` (`performance.py` lines 554-587): the sliding
window parameters and the recorded admission timestamps. -/
structure RateLimiterState : Type where
  maxRequests : Nat
  timeWindow : ℤ
  requests : List ℤ

/-- `RateLimiter.can_proceed` (`performance.py` lines 569-587) at wall-clock
time `now`: prune timestamps that have left the window, then admit (and
record `now`) exactly when fewer than `max_requests` remain. -/
def can_proceed (st : RateLimiterState) (now : ℤ) : Bool × RateLimiterState :=
  let pruned := st.requests.filter (fun t => now - t < st.timeWindow)
  if pruned.length < st.maxRequests then
    (true, { st with requests := pruned ++ [now] })
  else
    (false, { st with requests := pruned })

/-- Sequential admissions: state after calling `can_proceed` at times
`t 0, t 1, ..., t (k-1)` in order. -/
def admitTimes (st : RateLimiterState) (t : Nat → ℤ) : Nat → RateLimiterState
  | 0 => st
  | k + 1 => (can_proceed (admitTimes st t k) (t k)).2

/-- Boolean verdict of the `k`-th sequential `can_proceed` call (0-based). -/
def admitResult (st : RateLimiterState) (t : Nat → ℤ) (k : Nat) : Bool :=
  (can_proceed (admitTimes st t k) (t k)).1

/-- A fresh rate limiter with no recorded requests. -/
def rateLimiterInit (maxRequests : Nat) (timeWindow : ℤ) : RateLimiterState :=
  ⟨maxRequests, timeWindow, []⟩

/-- `Constants.DATA_FIELD`. -/
def DATA_FIELD : String := "data"

/-- `Constants.WORD_LIST_FIELD`. -/
def WORD_LIST_FIELD : String := "word_list"

/-- `Constants.SENTENCE_ID_FIELD`. -/
def SENTENCE_ID_FIELD : String := "sentence_id"

/-- `Constants.WORD_FIELD`. -/
def WORD_FIELD : String := "word"

/-- `Constants.POSITION_FIELD`. -/
def POSITION_FIELD : String := "position"

/-- `Constants.HOT_VALUE_FIELD`. -/
def HOT_VALUE_FIELD : String := "hot_value"

/-- `Constants.VIEW_COUNT_FIELD`. -/
def VIEW_COUNT_FIELD : String := "view_count"

/-- `Constants.AWEME_DETAIL_FIELD`. -/
def AWEME_DETAIL_FIELD : String := "aweme_detail"

/-- `Constants.AWEME_ID_FIELD`. -/
def AWEME_ID_FIELD : String := "aweme_id"

/-- `Constants.DESC_FIELD`. -/
def DESC_FIELD : String := "desc"

/-- The key path `video → bit_rate[0] → play_addr → url_list[0]` used by
`_process_video_detail`. -/
def videoUrlPath : List PyKey :=
  [PyKey.str "video", PyKey.str "bit_rate", PyKey.int 0,
   PyKey.str "play_addr", PyKey.str "url_list", PyKey.int 0]

/-- The `required_fields` list of `DouyinSpider._validate_hot_list_item`. -/
def requiredFields : List String :=
  [SENTENCE_ID_FIELD, WORD_FIELD, POSITION_FIELD, HOT_VALUE_FIELD, VIEW_COUNT_FIELD]

/-- The check `field not in item or item[field] is None` (negated): the
field is bound and not `None`. -/
def fieldPresent (d : List (String × PyVal)) (f : String) : Bool :=
  match pyDictLookup d f with
  | some PyVal.none => false
  | some _ => true
  | Option.none => false

/-- Value of a field, `None` when absent (only consulted after the
presence check, where it coincides with `item[field]`). -/
def itemField (d : List (String × PyVal)) (f : String) : PyVal :=
  (pyDictLookup d f).getD PyVal.none

/-- `DouyinSpider._validate_hot_list_item` (`douyin_spider.py` lines
507-544): all five fields present and non-`None`; `position`, `hot_value`,
`view_count` coerce to int with `position > 0` and the other two `≥ 0`;
the stringified, stripped `word` has length in `[1, 200]`. -/
def validate_hot_list_item (d : List (String × PyVal)) : Bool :=
  if requiredFields.all (fun f => fieldPresent d f) then
    match pyToInt (itemField d POSITION_FIELD), pyToInt (itemField d HOT_VALUE_FIELD),
        pyToInt (itemField d VIEW_COUNT_FIELD) with
    | Except.ok pos, Except.ok hot, Except.ok view =>
        if pos ≤ 0 || hot < 0 || view < 0 then false
        else
          let title := pyStrip (pyStr (itemField d WORD_FIELD))
          if title.length = 0 || title.length > 200 then false else true
    | _, _, _ => false
  else false

/-- `DouyinSpider._validate_video_data` (`douyin_spider.py` lines 546-565):
a dict containing a truthy `aweme_id` whose stringified, stripped form is
nonempty. -/
def validate_video_data : PyVal → Bool
  | PyVal.dict dd =>
      match pyDictLookup dd AWEME_ID_FIELD with
      | Option.none => false
      | some aweme_id =>
          if pyFalsy aweme_id then false
          else if pyStrip (pyStr aweme_id) = "" then false
          else true
  | _ => false

/-- `VideoArticle` (`models.py`); `created_at` (wall time) is omitted. -/
structure VideoArticle : Type where
  title : String
  short_url : String
  video_url : String

/-- `HotListItem` (`models.py`); `created_at` (wall time) is omitted. -/
structure HotListItem : Type where
  position : Int
  title : String
  url : String
  popularity : Int
  views : Int
  articles : List VideoArticle

/-- `HotListResponse` (`models.py`); `fetch_time` (wall time) is omitted and
`total_count` keeps its default `0`, which the crawl never updates. -/
structure HotListResponse : Type where
  items : List HotListItem
  total_count : Nat

/-- `CrawlResult` (`models.py`); `execution_time` (wall time) is omitted. -/
structure CrawlResult : Type where
  success : Bool
  data : Option HotListResponse
  error_message : Option String
  items_processed : Nat
  items_success : Nat

/-- The configuration fields of `AppConfig` that the crawl path reads
(cache disabled / no cache manager; `request_interval` pacing and video
download dispatch have no effect on the result and are omitted). -/
structure CrawlConfig : Type where
  hot_list_url : String
  video_url : String
  max_items : Nat
  skip_top_item : Bool
  url_encoding_enabled : Bool
  video_detail_max_retries : Nat

/-- `DouyinSpider._process_video_detail` (`douyin_spider.py` lines
449-505).  String payloads would be re-parsed as JSON in the source; the
parser is not modelled and such payloads are treated as unparseable
(`None`), which no claim depends on.  A `.get` on a non-dict payload raises
and is caught by the method's handler, giving `None`. -/
def process_video_detail (cfg : CrawlConfig) (json : PyVal) : Option VideoArticle :=
  match json with
  | PyVal.str _ => Option.none
  | PyVal.dict es =>
      let vdd := (pyDictLookup es AWEME_DETAIL_FIELD).getD PyVal.none
      if pyFalsy vdd then Option.none
      else if ¬ validate_video_data vdd then Option.none
      else
        match vdd with
        | PyVal.dict dd =>
            let video_id := pyStrip (pyStr ((pyDictLookup dd AWEME_ID_FIELD).getD PyVal.none))
            let video_title := clean_text ((pyDictLookup dd DESC_FIELD).getD (PyVal.str ""))
            if video_id = "" then Option.none
            else
              let raw := safe_get_nested_value vdd videoUrlPath (PyVal.str "")
              let play := if pyFalsy raw then "" else sanitize_url (pyStr raw)
              some ⟨video_title, cfg.video_url ++ "/" ++ video_id, play⟩
        | _ => Option.none
  | _ => Option.none

/-- The hot-list page URL built for an item before the video-detail fetch
(`douyin_spider.py` lines 394-405); `enc` stands for
`formatters.create_encrypted_url`, passed in as an oracle. -/
def hot_list_page_url (cfg : CrawlConfig) (enc : String → PyVal → String → String)
    (item_id : PyVal) (item_title : String) : String :=
  if cfg.url_encoding_enabled then enc cfg.hot_list_url item_id item_title
  else cfg.hot_list_url ++ "/" ++ pyStr item_id ++ "/" ++ item_title

/-- Body of `DouyinSpider._process_hot_list_item` (`douyin_spider.py` lines
372-447) before its exception handler, on a dict item; `videoDetail` is the
value returned by `_fetch_video_detail` (`None` models every
exhausted/failed fetch).  `Except.error` marks a raised exception, caught
by the handler in `process_hot_list_item`. -/
def process_item_dict (cfg : CrawlConfig) (enc : String → PyVal → String → String)
    (d : List (String × PyVal)) (videoDetail : Option PyVal) :
    Except Unit (Option HotListItem) :=
  if ¬ validate_hot_list_item d then Except.ok Option.none
  else
    match pyToInt (itemField d POSITION_FIELD), pyToInt (itemField d HOT_VALUE_FIELD),
        pyToInt (itemField d VIEW_COUNT_FIELD) with
    | Except.ok pos, Except.ok hot, Except.ok view =>
        let item_id := itemField d SENTENCE_ID_FIELD
        let item_title := clean_text (itemField d WORD_FIELD)
        let pageUrl := hot_list_page_url cfg enc item_id item_title
        let video_short_url : Except Unit (Option String) :=
          match videoDetail with
          | Option.none => Except.ok Option.none
          | some json =>
              match json with
              | PyVal.dict je =>
                  let vdd := (pyDictLookup je AWEME_DETAIL_FIELD).getD PyVal.none
                  if pyFalsy vdd then Except.ok Option.none
                  else
                    match vdd with
                    | PyVal.dict dd =>
                        let vid := pyStrip (pyStr ((pyDictLookup dd AWEME_ID_FIELD).getD (PyVal.str "")))
                        if vid = "" then Except.ok Option.none
                        else Except.ok (some (cfg.video_url ++ "/" ++ vid))
                    | _ => Except.error ()
              | _ => Except.error ()
        match video_short_url with
        | Except.error _ => Except.error ()
        | Except.ok shortUrl =>
            let item_url := shortUrl.getD pageUrl
            let articles :=
              match videoDetail with
              | Option.none => []
              | some json =>
                  match process_video_detail cfg json with
                  | some a => [a]
                  | Option.none => []
            Except.ok (some ⟨pos, item_title, item_url, hot, view, articles⟩)
    | _, _, _ => Except.error ()

/-- Dispatch on the payload shape: a membership test (`field not in item`)
on a non-dict raises `TypeError`. -/
def process_item_body (cfg : CrawlConfig) (enc : String → PyVal → String → String)
    (item_data : PyVal) (videoDetail : Option PyVal) :
    Except Unit (Option HotListItem) :=
  match item_data with
  | PyVal.dict d => process_item_dict cfg enc d videoDetail
  | _ => Except.error ()

/-- `DouyinSpider._process_hot_list_item`: the body with its
`except Exception: return None` handler. -/
def process_hot_list_item (cfg : CrawlConfig) (enc : String → PyVal → String → String)
    (item_data : PyVal) (videoDetail : Option PyVal) : Option HotListItem :=
  match process_item_body cfg enc item_data videoDetail with
  | Except.ok r => r
  | Except.error _ => Option.none

/-- Per-iteration behaviour oracle for the crawl loop: either the item's
processing raises an unexpected exception (the `except` branch at
`douyin_spider.py` line 216), or `_fetch_video_detail` returns `r`
(`None` for a failed/exhausted fetch). -/
inductive ItemStep : Type where
  | raises : ItemStep
  | fetchResult (r : Option PyVal) : ItemStep

/-- Result of processing loop iteration `i` on raw item `itm`:
`some` item on success, `none` on a validation failure, a swallowed
processing error, or a raised exception. -/
def itemOutcome (cfg : CrawlConfig) (enc : String → PyVal → String → String)
    (steps : Nat → ItemStep) (i : Nat) (itm : PyVal) : Option HotListItem :=
  match steps i with
  | ItemStep.raises => Option.none
  | ItemStep.fetchResult r => process_hot_list_item cfg enc itm r

/-- Counters and collected items of the crawl loop. -/
structure LoopAcc : Type where
  processed : Nat
  succeeded : Nat
  items : List HotListItem

/-- The `for i, hot_item_data in enumerate(hot_items_list)` loop of
`DouyinSpider.crawl` (`douyin_spider.py` lines 200-222): stop before
processing once `i ≥ max_items`; each processed item bumps
`items_processed`, each successful one also bumps `items_success` and is
appended to the response. -/
def crawlLoop (cfg : CrawlConfig) (enc : String → PyVal → String → String)
    (steps : Nat → ItemStep) : List PyVal → Nat → LoopAcc
  | [], _ => ⟨0, 0, []⟩
  | itm :: rest, i =>
      if i ≥ cfg.max_items then ⟨0, 0, []⟩
      else
        let acc := crawlLoop cfg enc steps rest (i + 1)
        match itemOutcome cfg enc steps i itm with
        | some hi => ⟨acc.processed + 1, acc.succeeded + 1, hi :: acc.items⟩
        | Option.none => ⟨acc.processed + 1, acc.succeeded, acc.items⟩

/-- Number of loop iterations whose item yields no `HotListItem`
(validation failures, swallowed processing errors, raised exceptions). -/
def crawlFailures (cfg : CrawlConfig) (enc : String → PyVal → String → String)
    (steps : Nat → ItemStep) : List PyVal → Nat → Nat
  | [], _ => 0
  | itm :: rest, i =>
      if i ≥ cfg.max_items then 0
      else
        (match itemOutcome cfg enc steps i itm with
         | some _ => 0
         | Option.none => 1) + crawlFailures cfg enc steps rest (i + 1)

/-- The pinned-item skip (`douyin_spider.py` lines 194-197): drop the first
element only when `skip_top_item` is set and more than one item exists. -/
def selectItems (cfg : CrawlConfig) (xs : List PyVal) : List PyVal :=
  if cfg.skip_top_item && xs.length > 1 then xs.drop 1 else xs

/-- `DouyinSpider.crawl` (`douyin_spider.py` lines 119-252) on the no-cache
path (`cache_manager` absent), with the hot-list fetch outcome and the
per-item behaviour supplied as oracles.  `Except.error e` models
`_fetch_hot_list_data` raising after exhausting its retries (caught by the
outer handler).  Non-dict/non-list payload shapes raise on attribute or
iteration access and are likewise caught by the outer handler. -/
def crawl (cfg : CrawlConfig) (enc : String → PyVal → String → String)
    (hotListFetch : Except String PyVal) (steps : Nat → ItemStep) : CrawlResult :=
  match hotListFetch with
  | Except.error e => ⟨false, Option.none, some e, 0, 0⟩
  | Except.ok json =>
      if pyFalsy json then ⟨false, Option.none, some "获取热榜数据失败", 0, 0⟩
      else
        match json with
        | PyVal.dict es =>
            let data := (pyDictLookup es DATA_FIELD).getD PyVal.none
            if pyFalsy data then
              ⟨false, Option.none, some "热榜数据格式异常：缺少data字段", 0, 0⟩
            else
              match data with
              | PyVal.dict des =>
                  let wl := (pyDictLookup des WORD_LIST_FIELD).getD (PyVal.list [])
                  if pyFalsy wl then ⟨false, Option.none, some "热榜数据为空", 0, 0⟩
                  else
                    match wl with
                    | PyVal.list xs =>
                        let acc := crawlLoop cfg enc steps (selectItems cfg xs) 0
                        ⟨true, some ⟨acc.items, 0⟩, Option.none, acc.processed, acc.succeeded⟩
                    | _ => ⟨false, Option.none, some "TypeError", 0, 0⟩
              | _ => ⟨false, Option.none, some "AttributeError", 0, 0⟩
        | _ => ⟨false, Option.none, some "AttributeError", 0, 0⟩

/-- A synthetic hot-list payload wrapping `items` the way the crawl expects
(`{"data": {"word_list": [...]}}`). -/
def mkHotListPayload (items : List PyVal) : PyVal :=
  PyVal.dict [(DATA_FIELD, PyVal.dict [(WORD_LIST_FIELD, PyVal.list items)])]

/-- What one run of the `_fetch` body inside `_fetch_video_detail` does
at the network level: time out, return an empty body, raise, or deliver a
payload. -/
inductive FetchOutcome : Type where
  | timeout : FetchOutcome
  | emptyBody : FetchOutcome
  | exception (msg : String) : FetchOutcome
  | payload (v : PyVal) : FetchOutcome

/-- One attempt of the `_fetch` body in `_fetch_video_detail`
(`douyin_spider.py` lines 339-368): every non-payload outcome — timeout,
empty body, or exception — is handled inside the body, which then returns
`None`; the body itself never raises, hence the error type `Empty`. -/
def fetch_attempt (o : FetchOutcome) : Attempt Empty (Option PyVal) :=
  Except.ok (match o with
    | FetchOutcome.payload v => some v
    | _ => Option.none)

/-- `DouyinSpider._fetch_video_detail` (`douyin_spider.py` lines 326-370):
the exception-swallowing `_fetch` body run through
`retry_on_failure(video_detail_max_retries, video_detail_delay)`, where the
`n`-th network attempt behaves as `attempts n`. -/
def fetch_video_detail (maxRetries : Nat) (attempts : Nat → FetchOutcome) :
    RetryTrace Empty (Option PyVal) :=
  retry_on_failure (fun n => fetch_attempt (attempts n)) maxRetries

/-- Entries produced by inserting the given keys at timestamps
`t, t + 1, t + 2, ...` (strictly increasing, as successive `time.time()`
readings). -/
def entriesFrom {V : Type} (v : V) : List String → ℤ → List (String × CacheEntry V)
  | [], _ => []
  | k :: ks, t => (k, ⟨v, t⟩) :: entriesFrom v ks (t + 1)

/-- Sequentially `set` each key at timestamps `t, t + 1, t + 2, ...`. -/
def insertKeysFrom {V : Type} (v : V) (st : CacheState V) :
    List String → ℤ → CacheState V
  | [], _ => st
  | k :: ks, t => insertKeysFrom v (cache_set st k v t) ks (t + 1)

/-! ## Lemmas about the retry wrapper -/

/-- An operation that throws on every attempt is invoked once per remaining
attempt, sleeps between consecutive attempts only, and the last exception is
re-raised. -/
lemma retryAux_allFail {E A : Type} (f : Nat → E) :
    ∀ (r a : Nat) (last : Option E), 1 ≤ r →
      retryAux (A := A) (fun n => Except.error (f n)) r a last =
        ⟨RetryResult.raised (f (a + r - 1)), r, r - 1⟩ := by
  intro r
  induction r with
  | zero => intro a last h; omega
  | succ r ih =>
      intro a last _
      by_cases hr : r = 0
      · subst hr
        simp [retryAux]
      · have h1 : 1 ≤ r := Nat.one_le_iff_ne_zero.mpr hr
        have hrec := ih (a + 1) (some (f a)) h1
        simp only [retryAux, hr, if_false, hrec]
        have e1 : a + 1 + r - 1 = a + (r + 1) - 1 := by omega
        have e2 : r - 1 + 1 = r := by omega
        rw [e1, e2, Nat.add_sub_cancel]

/-- An operation that first succeeds on its `k`-th invocation
(`1 ≤ k ≤ remaining`) is invoked exactly `k` times, with `k - 1` sleeps,
and its value is returned. -/
lemma retryAux_succeedAt {E A : Type} (op : Nat → Attempt E A) (v : A) :
    ∀ (k r a : Nat) (last : Option E), 1 ≤ k → k ≤ r →
      (∀ j, j + 1 < k → ∃ e, op (a + j) = Except.error e) →
      op (a + (k - 1)) = Except.ok v →
      retryAux op r a last = ⟨RetryResult.ok v, k, k - 1⟩ := by
  intro k
  induction k with
  | zero => intro r a last h; omega
  | succ k ih =>
      intro r a last _ hkr hfail hsucc
      obtain ⟨r2, rfl⟩ : ∃ r2, r = r2 + 1 := ⟨r - 1, by omega⟩
      by_cases hk : k = 0
      · subst hk
        have ha : op a = Except.ok v := by simpa using hsucc
        simp [retryAux, ha]
      · have h1 : 1 ≤ k := Nat.one_le_iff_ne_zero.mpr hk
        obtain ⟨e, he⟩ := hfail 0 (by omega)
        have he2 : op a = Except.error e := by simpa using he
        have hr2 : r2 ≠ 0 := by omega
        have hrec := ih r2 (a + 1) (some e) h1 (by omega)
          (fun j hj => by
            have := hfail (j + 1) (by omega)
            simpa [Nat.add_assoc, Nat.add_comm 1 j] using this)
          (by
            have : a + 1 + (k - 1) = a + (k + 1 - 1) := by omega
            rw [this]; exact hsucc)
        simp only [retryAux, he2, hr2, if_false, hrec]
        have e2 : k - 1 + 1 = k := by omega
        rw [e2, Nat.add_sub_cancel]

/-- C3: for every `maxRetries ≥ 1`, the retry wrapper invokes an
always-throwing operation exactly `maxRetries` times, sleeping the fixed
delay between consecutive attempts only (`maxRetries - 1` sleeps), and
re-raises the last exception thrown; an operation that first succeeds on
attempt `k ≤ maxRetries` is invoked exactly `k` times and its result is
returned. -/
theorem claim_C3_retry_policy {E A : Type} (maxRetries : Nat) (f : Nat → E)
    (op : Nat → Attempt E A) (v : A) (k : Nat)
    (hmax : 1 ≤ maxRetries) (hk1 : 1 ≤ k) (hk : k ≤ maxRetries)
    (hfail : ∀ j, j + 1 < k → ∃ e, op j = Except.error e)
    (hsucc : op (k - 1) = Except.ok v) :
    retry_on_failure (A := A) (fun n => Except.error (f n)) maxRetries =
      ⟨RetryResult.raised (f (maxRetries - 1)), maxRetries, maxRetries - 1⟩ ∧
    retry_on_failure op maxRetries = ⟨RetryResult.ok v, k, k - 1⟩ := by
  constructor
  · have := retryAux_allFail (A := A) f maxRetries 0 Option.none hmax
    simpa [retry_on_failure] using this
  · have := retryAux_succeedAt op v k maxRetries 0 Option.none hk1 hk
      (fun j hj => by simpa using hfail j hj) (by simpa using hsucc)
    simpa [retry_on_failure] using this

/-- Witness for C3 at `maxRetries = 3`, `k = 2`. -/
theorem claim_C3_retry_policy_witness :
    1 ≤ 3 ∧ 1 ≤ 2 ∧ 2 ≤ 3 ∧
    retry_on_failure (fun n => (Except.error (10 + n) : Attempt Nat Nat)) 3 =
      ⟨RetryResult.raised 12, 3, 2⟩ ∧
    retry_on_failure (fun n => if n = 1 then Except.ok 7 else (Except.error n : Attempt Nat Nat)) 3 =
      ⟨RetryResult.ok 7, 2, 1⟩ := by
  refine ⟨by decide, by decide, by decide, ?_⟩
  have h := claim_C3_retry_policy (E := Nat) (A := Nat) 3 (fun n => 10 + n)
    (fun n => if n = 1 then Except.ok 7 else Except.error n) 7 2
    (by decide) (by decide) (by decide)
    (fun j hj => by
      have hj0 : j = 0 := by omega
      subst hj0; exact ⟨0, rfl⟩)
    (by rfl)
  exact h

/-- C10: with `maxRetries = 0` the attempt loop body never runs, so the
operation is never invoked, no sleep happens, and the trailing
`raise last_exception` raises `None` (a `TypeError` for the caller) instead
of returning a value or an operation exception. -/
theorem claim_C10_zero_retries {E A : Type} (op : Nat → Attempt E A) :
    retry_on_failure op 0 = ⟨RetryResult.raisedNone, 0, 0⟩ := rfl

/-- C7: whenever the key path `video → bit_rate[0] → play_addr →
url_list[0]` fails at any level on a payload (any shape, dict or not),
`safe_get_nested_value` returns the empty-string default; the traversal
errors (`KeyError`/`IndexError`/`TypeError`) are all caught, so the
extraction is total and never raises. -/
theorem claim_C7_nested_extraction (data : PyVal)
    (h : pathMissing data videoUrlPath = true) :
    safe_get_nested_value data videoUrlPath (PyVal.str "") = PyVal.str "" := by
  unfold safe_get_nested_value
  unfold pathMissing at h
  cases he : pyIndexPath data videoUrlPath with
  | ok v => rw [he] at h; simp at h
  | error e => rfl

/-- Witness for C7: a payload with an empty dict at top level. -/
theorem claim_C7_nested_extraction_witness :
    pathMissing (PyVal.dict []) videoUrlPath = true ∧
    safe_get_nested_value (PyVal.dict []) videoUrlPath (PyVal.str "") = PyVal.str "" :=
  ⟨rfl, claim_C7_nested_extraction (PyVal.dict []) rfl⟩

/-! ## Lemmas about the dict model and the cache -/

/-- Writing a different key leaves the head of the dict in place. -/
lemma pyDictSet_cons_ne {β : Type} (hd : String × β) (tl : List (String × β))
    (k : String) (v : β) (h : hd.1 ≠ k) :
    pyDictSet (hd :: tl) k v = hd :: pyDictSet tl k v := by
  by_cases hb : tl.any (fun p => p.1 = k)
  · simp [pyDictSet, List.any_cons, h, hb]
  · simp [pyDictSet, List.any_cons, h, hb]

/-- After `d[k] = v`, looking `k` up finds exactly `(k, v)`. -/
lemma find?_pyDictSet {β : Type} (c : List (String × β)) (k : String) (v : β) :
    (pyDictSet c k v).find? (fun p => p.1 = k) = some (k, v) := by
  induction c with
  | nil => simp [pyDictSet, List.find?]
  | cons hd tl ih =>
      by_cases h1 : hd.1 = k
      · simp [pyDictSet, List.any_cons, h1, List.find?]
      · rw [pyDictSet_cons_ne hd tl k v h1,
          List.find?_cons_of_neg _ (by simpa using h1), ih]

/-- After `del d[k]`, the key `k` is unbound. -/
lemma find?_pyDictDel {β : Type} (c : List (String × β)) (k : String) :
    (pyDictDel c k).find? (fun p => p.1 = k) = Option.none := by
  induction c with
  | nil => simp [pyDictDel]
  | cons hd tl ih =>
      by_cases h1 : hd.1 = k
      · have : pyDictDel (hd :: tl) k = pyDictDel tl k := by
          simp [pyDictDel, List.filter_cons, h1]
        rw [this, ih]
      · have : pyDictDel (hd :: tl) k = hd :: pyDictDel tl k := by
          simp [pyDictDel, List.filter_cons, h1]
        rw [this, List.find?_cons_of_neg _ (by simpa using h1), ih]

/-- Reading a key whose entry is known. -/
lemma cache_get_found {V : Type} (st : CacheState V) (k : String)
    (e : CacheEntry V) (now : ℤ) (h : cacheLookup st.cache k = some e) :
    cache_get st k now =
      if now - e.timestamp < st.ttl then (some e.value, st)
      else (Option.none, { st with cache := pyDictDel st.cache k }) := by
  unfold cache_get
  rw [h]

/-- A `set` binds its key to the fresh entry, whatever eviction did. -/
lemma cacheLookup_cache_set {V : Type} (st : CacheState V) (k : String)
    (v : V) (now : ℤ) :
    cacheLookup (cache_set st k v now).cache k = some ⟨v, now⟩ := by
  unfold cacheLookup cache_set
  rw [find?_pyDictSet]
  rfl

/-- C4: for `ttl > 0`, a `set(k, v)` at time `tset` followed by `get(k)`
strictly within `ttl` returns `v` (state untouched); once `ttl` has
elapsed, `get(k)` returns nothing and the entry is removed from the map. -/
theorem claim_C4_cache_ttl {V : Type} (st : CacheState V) (k : String) (v : V)
    (tset tget : ℤ) (httl : 0 < st.ttl) :
    (tget - tset < st.ttl →
      cache_get (cache_set st k v tset) k tget = (some v, cache_set st k v tset)) ∧
    (st.ttl ≤ tget - tset →
      (cache_get (cache_set st k v tset) k tget).1 = Option.none ∧
      cacheLookup (cache_get (cache_set st k v tset) k tget).2.cache k = Option.none) := by
  have hget := cache_get_found (cache_set st k v tset) k ⟨v, tset⟩ tget
    (cacheLookup_cache_set st k v tset)
  constructor
  · intro hlt
    have hc : tget - (⟨v, tset⟩ : CacheEntry V).timestamp < (cache_set st k v tset).ttl := hlt
    rw [hget, if_pos hc]
  · intro hge
    have hc : ¬ tget - (⟨v, tset⟩ : CacheEntry V).timestamp < (cache_set st k v tset).ttl :=
      not_lt.mpr hge
    rw [hget, if_neg hc]
    refine ⟨rfl, ?_⟩
    show cacheLookup (pyDictDel (cache_set st k v tset).cache k) k = Option.none
    unfold cacheLookup
    rw [find?_pyDictDel]
    rfl

/-- Witness for C4 with `ttl = 5`, `set` at `t = 0`, `get` at `t = 4` and
`t = 5`. -/
theorem claim_C4_cache_ttl_witness :
    (0 : ℤ) < 5 ∧
    cache_get (cache_set (⟨10, 5, []⟩ : CacheState Nat) "k" 42 0) "k" 4 =
      (some 42, cache_set (⟨10, 5, []⟩ : CacheState Nat) "k" 42 0) ∧
    (cache_get (cache_set (⟨10, 5, []⟩ : CacheState Nat) "k" 42 0) "k" 5).1 = Option.none ∧
    cacheLookup (cache_get (cache_set (⟨10, 5, []⟩ : CacheState Nat) "k" 42 0) "k" 5).2.cache "k"
      = Option.none := by
  have h := claim_C4_cache_ttl (⟨10, 5, []⟩ : CacheState Nat) "k" 42 0 4 (by decide)
  have h2 := claim_C4_cache_ttl (⟨10, 5, []⟩ : CacheState Nat) "k" 42 0 5 (by decide)
  exact ⟨by decide, h.1 (by decide), h2.2 (by decide)⟩

/-- C5 counterexample: with `maxSize = 2`, after `set("a", ·)` at `t = 0`
and `set("b", ·)` at `t = 1`, overwriting the already-present key `"b"` at
`t = 2` evicts the different key `"a"`, because the size check
`len(cache) >= max_size` runs before the insertion even when the key is
already bound — contradicting both "evicts only when the map size would
exceed maxSize" and "an overwrite of an already-present key never evicts a
different entry". -/
theorem claim_C5_counterexample :
    (cacheLookup (cache_set (cache_set (⟨2, 100, []⟩ : CacheState Nat) "a" 1 0) "b" 2 1).cache "a"
        = some ⟨1, 0⟩) ∧
    (cacheLookup (cache_set (cache_set (⟨2, 100, []⟩ : CacheState Nat) "a" 1 0) "b" 2 1).cache "b"
        = some ⟨2, 1⟩) ∧
    (cacheLookup (cache_set (cache_set (cache_set (⟨2, 100, []⟩ : CacheState Nat) "a" 1 0) "b" 2 1)
        "b" 3 2).cache "a" = Option.none) ∧
    (cache_set (cache_set (⟨2, 100, []⟩ : CacheState Nat) "a" 1 0) "b" 2 1).cache.length
      = (⟨2, 100, []⟩ : CacheState Nat).maxSize :=
  ⟨rfl, rfl, rfl, rfl⟩

/-- The scan of `oldestKeyAux` returns either its seed (then minimal) or a
key bound in the scanned list to a minimal timestamp. -/
lemma oldestKeyAux_min {V : Type} :
    ∀ (rest : List (String × CacheEntry V)) (k : String) (t : ℤ),
      (oldestKeyAux k t rest = k ∧ ∀ q ∈ rest, t ≤ q.2.timestamp) ∨
      (∃ e, (oldestKeyAux k t rest, e) ∈ rest ∧ e.timestamp ≤ t ∧
        ∀ q ∈ rest, e.timestamp ≤ q.2.timestamp) := by
  intro rest
  induction rest with
  | nil => intro k t; exact Or.inl ⟨rfl, by simp⟩
  | cons hd tl ih =>
      intro k t
      obtain ⟨k2, e2⟩ := hd
      by_cases hlt : e2.timestamp < t
      · have step : oldestKeyAux k t ((k2, e2) :: tl) = oldestKeyAux k2 e2.timestamp tl := by
          simp [oldestKeyAux, hlt]
        rcases ih k2 e2.timestamp with ⟨h1, h2⟩ | ⟨e, hmem, hle, hall⟩
        · refine Or.inr ⟨e2, ?_, le_of_lt hlt, ?_⟩
          · rw [step, h1]; exact List.mem_cons_self _ _
          · intro q hq
            rcases List.mem_cons.mp hq with rfl | hq2
            · exact le_refl _
            · exact h2 q hq2
        · refine Or.inr ⟨e, ?_, le_trans hle (le_of_lt hlt), ?_⟩
          · rw [step]; exact List.mem_cons_of_mem _ hmem
          · intro q hq
            rcases List.mem_cons.mp hq with rfl | hq2
            · exact hle
            · exact hall q hq2
      · have step : oldestKeyAux k t ((k2, e2) :: tl) = oldestKeyAux k t tl := by
          simp [oldestKeyAux, hlt]
        have hts : t ≤ e2.timestamp := not_lt.mp hlt
        rcases ih k t with ⟨h1, h2⟩ | ⟨e, hmem, hle, hall⟩
        · refine Or.inl ⟨by rw [step, h1], ?_⟩
          intro q hq
          rcases List.mem_cons.mp hq with rfl | hq2
          · exact hts
          · exact h2 q hq2
        · refine Or.inr ⟨e, ?_, hle, ?_⟩
          · rw [step]; exact List.mem_cons_of_mem _ hmem
          · intro q hq
            rcases List.mem_cons.mp hq with rfl | hq2
            · exact le_trans hle hts
            · exact hall q hq2

/-- The scanned minimum is an entry of the dict with globally minimal
timestamp. -/
lemma oldestKey_min {V : Type} (c : List (String × CacheEntry V)) (k0 : String)
    (h : oldestKey c = some k0) :
    ∃ e0, (k0, e0) ∈ c ∧ ∀ q ∈ c, e0.timestamp ≤ q.2.timestamp := by
  cases c with
  | nil => simp [oldestKey] at h
  | cons hd tl =>
      obtain ⟨k1, e1⟩ := hd
      have h2 : oldestKeyAux k1 e1.timestamp tl = k0 := by
        simpa [oldestKey] using h
      rcases oldestKeyAux_min tl k1 e1.timestamp with ⟨h1, hall⟩ | ⟨e, hmem, hle, hall⟩
      · refine ⟨e1, ?_, ?_⟩
        · rw [← h2, h1]; exact List.mem_cons_self _ _
        · intro q hq
          rcases List.mem_cons.mp hq with rfl | hq2
          · exact le_refl _
          · exact hall q hq2
      · refine ⟨e, ?_, ?_⟩
        · rw [← h2]; exact List.mem_cons_of_mem _ hmem
        · intro q hq
          rcases List.mem_cons.mp hq with rfl | hq2
          · exact hle
          · exact hall q hq2

/-- Keys of a run of timestamped entries. -/
lemma entriesFrom_map_fst {V : Type} (v : V) :
    ∀ (ks : List String) (t : ℤ), (entriesFrom v ks t).map Prod.fst = ks := by
  intro ks
  induction ks with
  | nil => intro t; rfl
  | cons k ks ih => intro t; simp [entriesFrom, ih]

/-- Length of a run of timestamped entries. -/
lemma entriesFrom_length {V : Type} (v : V) :
    ∀ (ks : List String) (t : ℤ), (entriesFrom v ks t).length = ks.length := by
  intro ks
  induction ks with
  | nil => intro t; rfl
  | cons k ks ih => intro t; simp [entriesFrom, ih]

/-- Writing a fresh key appends it. -/
lemma pyDictSet_fresh {β : Type} (c : List (String × β)) (k : String) (v : β)
    (h : k ∉ c.map Prod.fst) :
    pyDictSet c k v = c ++ [(k, v)] := by
  have hany : c.any (fun p => p.1 = k) = false := by
    rw [List.any_eq_false]
    intro p hp
    simp only [decide_eq_true_eq]
    intro hk
    exact h (List.mem_map.mpr ⟨p, hp, hk⟩)
  simp [pyDictSet, hany]

/-- Deleting an unbound key is a no-op. -/
lemma pyDictDel_of_not_mem {β : Type} (c : List (String × β)) (k : String)
    (h : k ∉ c.map Prod.fst) :
    pyDictDel c k = c := by
  rw [pyDictDel, List.filter_eq_self]
  intro p hp
  simp only [decide_eq_true_eq]
  intro hk
  exact h (List.mem_map.mpr ⟨p, hp, hk⟩)

/-- A `set` below capacity evicts nothing. -/
lemma cache_set_of_lt {V : Type} (st : CacheState V) (k : String) (v : V) (now : ℤ)
    (h : st.cache.length < st.maxSize) :
    cache_set st k v now = { st with cache := pyDictSet st.cache k ⟨v, now⟩ } := by
  simp only [cache_set]
  rw [if_neg (not_le.mpr h)]

/-- A `set` at (or beyond) capacity first deletes the scanned oldest key. -/
lemma cache_set_of_ge {V : Type} (st : CacheState V) (k : String) (v : V) (now : ℤ)
    (k0 : String) (h : st.cache.length ≥ st.maxSize) (hk0 : oldestKey st.cache = some k0) :
    cache_set st k v now =
      { st with cache := pyDictSet (pyDictDel st.cache k0) k ⟨v, now⟩ } := by
  simp only [cache_set]
  rw [if_pos h, hk0]

/-- Splitting a sequential insertion run. -/
lemma insertKeysFrom_append {V : Type} (v : V) :
    ∀ (l1 l2 : List String) (st : CacheState V) (t : ℤ),
      insertKeysFrom v st (l1 ++ l2) t =
        insertKeysFrom v (insertKeysFrom v st l1 t) l2 (t + l1.length) := by
  intro l1
  induction l1 with
  | nil => intro l2 st t; simp [insertKeysFrom]
  | cons k ks ih =>
      intro l2 st t
      have harg : (t + 1) + (ks.length : ℤ) = t + ((k :: ks).length : ℤ) := by
        simp only [List.length_cons]
        push_cast
        ring
      calc insertKeysFrom v st ((k :: ks) ++ l2) t
          = insertKeysFrom v (insertKeysFrom v (cache_set st k v t) ks (t + 1)) l2
              ((t + 1) + ks.length) := ih l2 (cache_set st k v t) (t + 1)
        _ = insertKeysFrom v (insertKeysFrom v st (k :: ks) t) l2 (t + (k :: ks).length) := by
              rw [harg]
              rfl

/-- Filling phase: inserting fresh, pairwise-distinct keys into a cache
with enough room appends them with their timestamps, evicting nothing. -/
lemma insertKeysFrom_fill {V : Type} (v : V) (m : Nat) (ttl : ℤ) :
    ∀ (ks : List String) (c : List (String × CacheEntry V)) (t : ℤ),
      (c.map Prod.fst ++ ks).Nodup → c.length + ks.length ≤ m →
      insertKeysFrom v (⟨m, ttl, c⟩ : CacheState V) ks t =
        ⟨m, ttl, c ++ entriesFrom v ks t⟩ := by
  intro ks
  induction ks with
  | nil => intro c t h1 h2; simp [insertKeysFrom, entriesFrom]
  | cons k ks ih =>
      intro c t h1 h2
      simp only [List.length_cons] at h2
      have hkfresh : k ∉ c.map Prod.fst := by
        have := (List.nodup_append.mp h1).2.2
        intro hmem
        exact this hmem (List.mem_cons_self _ _)
      have hset : cache_set (⟨m, ttl, c⟩ : CacheState V) k v t =
          ⟨m, ttl, c ++ [(k, ⟨v, t⟩)]⟩ := by
        rw [cache_set_of_lt _ _ _ _ (by simp only; omega)]
        simp only
        rw [pyDictSet_fresh c k _ hkfresh]
      have hnodup2 : ((c ++ [((k : String), (⟨v, t⟩ : CacheEntry V))]).map Prod.fst ++ ks).Nodup := by
        have heq : (c ++ [((k : String), (⟨v, t⟩ : CacheEntry V))]).map Prod.fst ++ ks
            = c.map Prod.fst ++ (k :: ks) := by
          simp [List.map_append, List.append_assoc]
        rw [heq]
        exact h1
      have hrec := ih (c ++ [(k, ⟨v, t⟩)]) (t + 1) hnodup2
        (by simp only [List.length_append, List.length_cons, List.length_nil]; omega)
      calc insertKeysFrom v (⟨m, ttl, c⟩ : CacheState V) (k :: ks) t
          = insertKeysFrom v (cache_set (⟨m, ttl, c⟩ : CacheState V) k v t) ks (t + 1) := rfl
        _ = insertKeysFrom v (⟨m, ttl, c ++ [(k, ⟨v, t⟩)]⟩ : CacheState V) ks (t + 1) := by
              rw [hset]
        _ = ⟨m, ttl, (c ++ [(k, ⟨v, t⟩)]) ++ entriesFrom v ks (t + 1)⟩ := hrec
        _ = ⟨m, ttl, c ++ entriesFrom v (k :: ks) t⟩ := by
              simp [entriesFrom, List.append_assoc]

/-- Scanning entries whose timestamps all exceed the seed keeps the seed. -/
lemma oldestKeyAux_entriesFrom {V : Type} (v : V) :
    ∀ (ks : List String) (k : String) (t t2 : ℤ), t < t2 →
      oldestKeyAux k t (entriesFrom v ks t2) = k := by
  intro ks
  induction ks with
  | nil => intro k t t2 h; rfl
  | cons k2 ks ih =>
      intro k t t2 h
      have hc : ¬ ((⟨v, t2⟩ : CacheEntry V).timestamp < t) := by
        simp only [not_lt]
        exact le_of_lt h
      simp only [entriesFrom, oldestKeyAux, hc, if_false]
      exact ih k t (t2 + 1) (by omega)

/-- C5 (amended): `CacheManager.set` evicts whenever the map already holds
at least `maxSize` entries — a check made before insertion even when the key
being set is already present, so an overwrite at capacity may evict a
different key — and then evicts exactly the entry scanned as having the
oldest stored timestamp; inserting `maxSize + 1` pairwise-distinct keys at
increasing timestamps into an empty cache leaves exactly `maxSize` entries,
with the first (oldest-timestamped) key gone and the rest in insertion
order. -/
theorem claim_C5_cache_eviction {V : Type} (st : CacheState V) (k : String) (w : V)
    (now : ℤ) (v : V) (ttl : ℤ) (m : Nat) (keys : List String)
    (hnodup : keys.Nodup) (hlen : keys.length = m + 1) (hm : 1 ≤ m) :
    (st.cache.length < st.maxSize →
      cache_set st k w now = { st with cache := pyDictSet st.cache k ⟨w, now⟩ }) ∧
    (st.cache.length ≥ st.maxSize → ∀ k0, oldestKey st.cache = some k0 →
      cache_set st k w now =
        { st with cache := pyDictSet (pyDictDel st.cache k0) k ⟨w, now⟩ } ∧
      ∃ e0, (k0, e0) ∈ st.cache ∧ ∀ q ∈ st.cache, e0.timestamp ≤ q.2.timestamp) ∧
    ((insertKeysFrom v (⟨m, ttl, []⟩ : CacheState V) keys 0).cache.map Prod.fst = keys.tail ∧
     (insertKeysFrom v (⟨m, ttl, []⟩ : CacheState V) keys 0).cache.length = m) := by
  refine ⟨fun h => cache_set_of_lt st k w now h,
    fun h k0 hk0 => ⟨cache_set_of_ge st k w now k0 h hk0, oldestKey_min st.cache k0 hk0⟩, ?_⟩
  obtain ⟨i0, rest0, rfl⟩ : ∃ a l, keys = a :: l := by
    cases keys with
    | nil => exact absurd hlen (by simp only [List.length_nil]; omega)
    | cons a l => exact ⟨a, l, rfl⟩
  rcases List.eq_nil_or_concat rest0 with rfl | ⟨mid, lastK, rfl⟩
  · exfalso
    simp only [List.length_cons, List.length_nil] at hlen
    omega
  · -- keys = (i0 :: mid) ++ [lastK]
    simp only [List.concat_eq_append] at hnodup hlen ⊢
    have hkeys : i0 :: (mid ++ [lastK]) = (i0 :: mid) ++ [lastK] := rfl
    have hmid : mid.length + 2 = m + 1 := by
      simpa [List.length_append] using hlen
    have hnodup2 : ((i0 :: mid) ++ [lastK]).Nodup := by rw [← hkeys]; exact hnodup
    have hinit : (i0 :: mid).Nodup := (List.nodup_append.mp hnodup2).1
    have hdisj : (i0 :: mid).Disjoint [lastK] := (List.nodup_append.mp hnodup2).2.2
    have hlastfresh : lastK ∉ i0 :: mid := by
      intro hmem
      exact hdisj hmem (List.mem_cons_self _ _)
    have hi0fresh : i0 ∉ mid := (List.nodup_cons.mp hinit).1
    -- run the first m inserts
    have hfill := insertKeysFrom_fill v m ttl (i0 :: mid) [] 0
      (by simpa using hinit) (by simp only [List.length_nil, List.length_cons]; omega)
    have hsplit := insertKeysFrom_append v (i0 :: mid) [lastK]
      (⟨m, ttl, []⟩ : CacheState V) 0
    -- the filled cache
    set E : List (String × CacheEntry V) := entriesFrom v (i0 :: mid) 0 with hE
    have hElen : E.length = m := by
      rw [hE, entriesFrom_length]
      simp only [List.length_cons]
      omega
    have hEexp : E = (i0, ⟨v, 0⟩) :: entriesFrom v mid (0 + 1) := rfl
    have holdest : oldestKey E = some i0 := by
      rw [hEexp]
      show some (oldestKeyAux i0 (⟨v, (0 : ℤ)⟩ : CacheEntry V).timestamp
        (entriesFrom v mid (0 + 1))) = some i0
      rw [oldestKeyAux_entriesFrom v mid i0 0 (0 + 1) (by omega)]
    set t1 : ℤ := 0 + ((i0 :: mid).length : ℤ) with ht1
    have hlast : insertKeysFrom v (⟨m, ttl, E⟩ : CacheState V) [lastK] t1 =
        cache_set (⟨m, ttl, E⟩ : CacheState V) lastK v t1 := rfl
    have hdel : pyDictDel E i0 = entriesFrom v mid (0 + 1) := by
      rw [hEexp]
      have hstep : pyDictDel ((i0, (⟨v, (0 : ℤ)⟩ : CacheEntry V)) :: entriesFrom v mid (0 + 1)) i0
          = pyDictDel (entriesFrom v mid (0 + 1)) i0 := by
        simp [pyDictDel, List.filter_cons]
      rw [hstep, pyDictDel_of_not_mem]
      rw [entriesFrom_map_fst]
      exact hi0fresh
    have hsetlast : cache_set (⟨m, ttl, E⟩ : CacheState V) lastK v t1 =
        ⟨m, ttl, entriesFrom v mid (0 + 1) ++ [(lastK, ⟨v, t1⟩)]⟩ := by
      rw [cache_set_of_ge _ _ _ _ i0 (by simp only; omega) holdest]
      simp only
      rw [hdel, pyDictSet_fresh]
      rw [entriesFrom_map_fst]
      intro hmem
      exact hlastfresh (List.mem_cons_of_mem _ hmem)
    have hfinal : insertKeysFrom v (⟨m, ttl, []⟩ : CacheState V) ((i0 :: mid) ++ [lastK]) 0 =
        ⟨m, ttl, entriesFrom v mid (0 + 1) ++ [(lastK, ⟨v, t1⟩)]⟩ := by
      rw [hsplit, hfill]
      simp only [List.nil_append]
      rw [hlast, hsetlast]
    rw [hkeys, hfinal]
    constructor
    · simp only [List.map_append, entriesFrom_map_fst, List.map_cons, List.map_nil]
      rfl
    · simp only [List.length_append, entriesFrom_length, List.length_cons, List.length_nil]
      omega

/-- Witness for C5 with `maxSize = 2` and keys `a`, `b`, `c`. -/
theorem claim_C5_cache_eviction_witness :
    ["a", "b", "c"].Nodup ∧ (["a", "b", "c"] : List String).length = 2 + 1 ∧ 1 ≤ 2 ∧
    ((⟨2, 100, []⟩ : CacheState Nat).cache.length < 2 →
      cache_set (⟨2, 100, []⟩ : CacheState Nat) "a" 7 0 =
        { (⟨2, 100, []⟩ : CacheState Nat) with
            cache := pyDictSet (⟨2, 100, []⟩ : CacheState Nat).cache "a" ⟨7, 0⟩ }) ∧
    (insertKeysFrom 7 (⟨2, 100, []⟩ : CacheState Nat) ["a", "b", "c"] 0).cache.map Prod.fst
      = ["b", "c"] ∧
    (insertKeysFrom 7 (⟨2, 100, []⟩ : CacheState Nat) ["a", "b", "c"] 0).cache.length = 2 := by
  have h := claim_C5_cache_eviction (⟨2, 100, []⟩ : CacheState Nat) "a" 7 0 7 100 2
    ["a", "b", "c"] (by decide) (by decide) (by decide)
  exact ⟨by decide, by decide, by decide, h.1, h.2.2.1, h.2.2.2⟩

/-! ## Lemmas about the rate limiter -/

/-- A trailing-window filter keeps every timestamp of a run whose entries
are pairwise within the window. -/
lemma filter_range_keep (W : ℤ) (t : Nat → ℤ) (N k : Nat)
    (hpair : ∀ i j, i ≤ j → j ≤ N → 0 ≤ t j - t i ∧ t j - t i < W)
    (hk : k ≤ N) :
    ((List.range k).map t).filter (fun x => decide (t k - x < W)) =
      (List.range k).map t := by
  rw [List.filter_eq_self]
  intro x hx
  obtain ⟨i, hi, rfl⟩ := List.mem_map.mp hx
  have hiK : i ≤ k := le_of_lt (List.mem_range.mp hi)
  exact decide_eq_true (hpair i k hiK hk).2

/-- While all recorded calls are pairwise within the window, nothing is
pruned and every call is admitted and recorded: after `k ≤ N` calls the
recorded timestamps are exactly `t 0, ..., t (k-1)`. -/
lemma admitTimes_eq (N : Nat) (W : ℤ) (t : Nat → ℤ)
    (hpair : ∀ i j, i ≤ j → j ≤ N → 0 ≤ t j - t i ∧ t j - t i < W) :
    ∀ k, k ≤ N → admitTimes (rateLimiterInit N W) t k =
      ⟨N, W, (List.range k).map t⟩ := by
  intro k
  induction k with
  | zero => intro _; rfl
  | succ k ih =>
      intro hk
      have hik := ih (by omega)
      show (can_proceed (admitTimes (rateLimiterInit N W) t k) (t k)).2 = _
      rw [hik]
      unfold can_proceed
      rw [filter_range_keep W t N k hpair (by omega)]
      simp only [List.length_map, List.length_range]
      rw [if_pos (by omega)]
      simp [List.range_succ]

/-- C6: `can_proceed` prunes the timestamps that left the trailing window,
records the current time exactly when it admits, and returns true iff
fewer than `maxRequests` pruned timestamps remain; consequently, for calls
at nondecreasing times all within `W` of the first, the first `N` calls are
admitted, the `(N+1)`-th is refused, and once `W` has elapsed since the
oldest admitted call a further call is admitted again. -/
theorem claim_C6_rate_limiter (N : Nat) (W : ℤ) (t : Nat → ℤ) (tR : ℤ)
    (hN : 1 ≤ N) (hW : 0 < W)
    (hmono : ∀ i j, i ≤ j → t i ≤ t j)
    (hwin : t N - t 0 < W)
    (hR : W ≤ tR - t 0) :
    (∀ (st : RateLimiterState) (now : ℤ),
        ((can_proceed st now).1 = true ↔
          (st.requests.filter (fun x => now - x < st.timeWindow)).length < st.maxRequests) ∧
        (can_proceed st now).2.requests =
          (st.requests.filter (fun x => now - x < st.timeWindow)) ++
            (if (st.requests.filter (fun x => now - x < st.timeWindow)).length < st.maxRequests
             then [now] else [])) ∧
    (∀ k, k < N → admitResult (rateLimiterInit N W) t k = true) ∧
    admitResult (rateLimiterInit N W) t N = false ∧
    (can_proceed (admitTimes (rateLimiterInit N W) t (N + 1)) tR).1 = true := by
  have hpair : ∀ i j, i ≤ j → j ≤ N → 0 ≤ t j - t i ∧ t j - t i < W := by
    intro i j hij hjN
    have h1 : t i ≤ t j := hmono i j hij
    have h2 : t j ≤ t N := hmono j N hjN
    have h3 : t 0 ≤ t i := hmono 0 i (Nat.zero_le i)
    exact ⟨by omega, by omega⟩
  refine ⟨?_, ?_, ?_, ?_⟩
  · intro st now
    by_cases hc : (st.requests.filter (fun x => now - x < st.timeWindow)).length < st.maxRequests
    · exact ⟨by simp [can_proceed, hc], by simp [can_proceed, hc]⟩
    · exact ⟨by simp [can_proceed, hc], by simp [can_proceed, hc]⟩
  · intro k hk
    unfold admitResult
    rw [admitTimes_eq N W t hpair k (le_of_lt hk)]
    unfold can_proceed
    rw [filter_range_keep W t N k hpair (le_of_lt hk)]
    simp only [List.length_map, List.length_range]
    rw [if_pos (by omega)]
  · unfold admitResult
    rw [admitTimes_eq N W t hpair N le_rfl]
    unfold can_proceed
    rw [filter_range_keep W t N N hpair le_rfl]
    simp only [List.length_map, List.length_range]
    rw [if_neg (by omega)]
  · have hfull : admitTimes (rateLimiterInit N W) t (N + 1) =
        ⟨N, W, (List.range N).map t⟩ := by
      show (can_proceed (admitTimes (rateLimiterInit N W) t N) (t N)).2 = _
      rw [admitTimes_eq N W t hpair N le_rfl]
      unfold can_proceed
      rw [filter_range_keep W t N N hpair le_rfl]
      simp only [List.length_map, List.length_range]
      rw [if_neg (by omega)]
    rw [hfull]
    unfold can_proceed
    obtain ⟨N2, rfl⟩ : ∃ n, N = n + 1 := ⟨N - 1, by omega⟩
    rw [List.range_succ_eq_map]
    have h0 : (decide (tR - t 0 < ((⟨N2 + 1, W, ((0 :: List.map Nat.succ (List.range N2)).map t)⟩ :
        RateLimiterState)).timeWindow)) = false := by
      rw [decide_eq_false_iff_not]
      simp only
      omega
    simp only [List.map_cons, List.filter_cons, h0, Bool.false_eq_true, if_false]
    have hlen : (((List.map Nat.succ (List.range N2)).map t).filter
        (fun x => decide (tR - x < W))).length ≤ N2 := by
      refine le_trans (List.length_filter_le _ _) ?_
      simp
    rw [if_pos (by omega)]

/-- Witness for C6 with `N = 3`, `W = 10`, calls at times `0, 1, 2, 3` and a
resumption call at time `11`. -/
theorem claim_C6_rate_limiter_witness :
    1 ≤ 3 ∧ (0 : ℤ) < 10 ∧ ((3 : ℤ) - 0 < 10) ∧ ((10 : ℤ) ≤ 11 - 0) ∧
    admitResult (rateLimiterInit 3 10) (fun i => (i : ℤ)) 0 = true ∧
    admitResult (rateLimiterInit 3 10) (fun i => (i : ℤ)) 1 = true ∧
    admitResult (rateLimiterInit 3 10) (fun i => (i : ℤ)) 2 = true ∧
    admitResult (rateLimiterInit 3 10) (fun i => (i : ℤ)) 3 = false ∧
    (can_proceed (admitTimes (rateLimiterInit 3 10) (fun i => (i : ℤ)) 4) 11).1 = true := by
  have h := claim_C6_rate_limiter 3 10 (fun i => (i : ℤ)) 11 (by decide) (by decide)
    (fun i j hij => by simp only []; exact_mod_cast hij) (by decide) (by decide)
  exact ⟨by decide, by decide, by decide, by decide,
    h.2.1 0 (by decide), h.2.1 1 (by decide), h.2.1 2 (by decide), h.2.2.1, h.2.2.2⟩

/-! ## Lemmas about URL sanitization -/

/-- Removing a character removes every occurrence of it. -/
lemma removeChar_not_mem (s : String) (c : Char) : c ∉ (removeChar s c).data := by
  intro hmem
  have := List.mem_filter.mp hmem
  simp at this

/-- Removing one character introduces no new characters. -/
lemma removeChar_preserves_not_mem (s : String) (c a : Char) (h : a ∉ s.data) :
    a ∉ (removeChar s c).data := by
  intro hmem
  exact h (List.mem_filter.mp hmem).1

/-- Absence of a character is stable under further removals. -/
lemma foldl_removeChar_preserves_not_mem (a : Char) :
    ∀ (L : List Char) (s : String), a ∉ s.data → a ∉ (L.foldl removeChar s).data := by
  intro L
  induction L with
  | nil => intro s h; exact h
  | cons c L ih =>
      intro s h
      exact ih (removeChar s c) (removeChar_preserves_not_mem s c a h)

/-- Every character of the removal list is absent from the result. -/
lemma foldl_removeChar_not_mem (a : Char) :
    ∀ (L : List Char) (s : String), a ∈ L → a ∉ (L.foldl removeChar s).data := by
  intro L
  induction L with
  | nil => intro s h; simp at h
  | cons c L ih =>
      intro s h
      rcases List.mem_cons.mp h with rfl | hL
      · exact foldl_removeChar_preserves_not_mem a L (removeChar s a)
          (removeChar_not_mem s a)
      · exact ih (removeChar s c) hL

/-- Removing a character absent from a prefix keeps that prefix. -/
lemma removeChar_prefix (p : List Char) (c : Char) (hp : ∀ a ∈ p, a ≠ c) (s : String)
    (h : ∃ r, s.data = p ++ r) : ∃ r2, (removeChar s c).data = p ++ r2 := by
  obtain ⟨r, hr⟩ := h
  refine ⟨r.filter (fun a => decide (a ≠ c)), ?_⟩
  show (s.data.filter (fun a => decide (a ≠ c))) = _
  rw [hr, List.filter_append]
  congr 1
  rw [List.filter_eq_self]
  intro a ha
  exact decide_eq_true (hp a ha)

/-- A prefix containing none of the removed characters survives the
removal loop. -/
lemma foldl_removeChar_prefix (p : List Char) :
    ∀ (L : List Char), (∀ a ∈ p, a ∉ L) → ∀ (s : String),
      (∃ r, s.data = p ++ r) → ∃ r2, (L.foldl removeChar s).data = p ++ r2 := by
  intro L
  induction L with
  | nil => intro _ s h; exact h
  | cons c L ih =>
      intro hp s h
      refine ih (fun a ha hmem => hp a ha (List.mem_cons_of_mem _ hmem))
        (removeChar s c) ?_
      exact removeChar_prefix p c
        (fun a ha => by
          intro hac
          exact hp a ha (by rw [hac]; exact List.mem_cons_self _ _)) s h

/-- C9 counterexample: the input `" https://a"` does not start with
`http://` or `https://`, yet `sanitize_url` returns `"https://a"` rather
than the empty string, because the source strips leading/trailing
whitespace before the scheme check. -/
theorem claim_C9_counterexample :
    pyStartsWith " https://a" "http://" = false ∧
    pyStartsWith " https://a" "https://" = false ∧
    sanitize_url " https://a" = "https://a" ∧ "https://a" ≠ "" := by
  refine ⟨by decide, by decide, ?_, by decide⟩
  decide

/-- C9 (amended): `sanitize_url` first strips leading/trailing whitespace;
if the stripped input does not start with `http://` or `https://` it
returns the empty string, and otherwise it returns the stripped input with
every occurrence of the characters `"`, `'`, `<`, `>`, backquote, newline,
carriage return and tab removed; hence every non-empty sanitized URL starts
with `http://` or `https://` and contains none of those characters. -/
theorem claim_C9_sanitize_url (url : String) :
    (¬ (pyStartsWith (pyStrip url) "http://" = true ∨
        pyStartsWith (pyStrip url) "https://" = true) →
      sanitize_url url = "") ∧
    ((pyStartsWith (pyStrip url) "http://" = true ∨
      pyStartsWith (pyStrip url) "https://" = true) →
      sanitize_url url = dangerousChars.foldl removeChar (pyStrip url)) ∧
    (sanitize_url url ≠ "" →
      (pyStartsWith (sanitize_url url) "http://" = true ∨
       pyStartsWith (sanitize_url url) "https://" = true) ∧
      ∀ c ∈ dangerousChars, c ∉ (sanitize_url url).data) := by
  by_cases hc : (pyStartsWith (pyStrip url) "http://" ||
      pyStartsWith (pyStrip url) "https://") = true
  · have hval : sanitize_url url = dangerousChars.foldl removeChar (pyStrip url) := by
      unfold sanitize_url
      rw [if_pos hc]
    have hor := Bool.or_eq_true _ _ |>.mp hc
    refine ⟨fun h => absurd hor h, fun _ => hval, fun _ => ?_⟩
    constructor
    · rcases hor with h1 | h1
      · left
        obtain ⟨r, hr⟩ := List.isPrefixOf_iff_prefix.mp h1
        obtain ⟨r2, hr2⟩ := foldl_removeChar_prefix ("http://".data) dangerousChars
          (by decide) (pyStrip url) ⟨r, hr.symm⟩
        rw [hval]
        exact List.isPrefixOf_iff_prefix.mpr ⟨r2, hr2.symm⟩
      · right
        obtain ⟨r, hr⟩ := List.isPrefixOf_iff_prefix.mp h1
        obtain ⟨r2, hr2⟩ := foldl_removeChar_prefix ("https://".data) dangerousChars
          (by decide) (pyStrip url) ⟨r, hr.symm⟩
        rw [hval]
        exact List.isPrefixOf_iff_prefix.mpr ⟨r2, hr2.symm⟩
    · intro c hcmem
      rw [hval]
      exact foldl_removeChar_not_mem c dangerousChars (pyStrip url) hcmem
  · have hval : sanitize_url url = "" := by
      unfold sanitize_url
      rw [if_neg hc]
    refine ⟨fun _ => hval, fun h => ?_, fun h => absurd hval h⟩
    exact absurd ((Bool.or_eq_true _ _).mpr h) hc

/-- Witness for C9 on the input `"https://ex<a>"`. -/
theorem claim_C9_sanitize_url_witness :
    sanitize_url "https://ex<a>" ≠ "" ∧
    (pyStartsWith (sanitize_url "https://ex<a>") "http://" = true ∨
     pyStartsWith (sanitize_url "https://ex<a>") "https://" = true) ∧
    (∀ c ∈ dangerousChars, c ∉ (sanitize_url "https://ex<a>").data) := by
  have h := (claim_C9_sanitize_url "https://ex<a>").2.2 (by decide)
  exact ⟨by decide, h.1, h.2⟩

/-! ## Lemmas about item validation and the crawl loop -/

/-- One unfolding step of the crawl loop below the item cap. -/
lemma crawlLoop_cons (cfg : CrawlConfig) (enc : String → PyVal → String → String)
    (steps : Nat → ItemStep) (itm : PyVal) (rest : List PyVal) (i : Nat)
    (hi : i < cfg.max_items) :
    crawlLoop cfg enc steps (itm :: rest) i =
      match itemOutcome cfg enc steps i itm with
      | some hi2 =>
          ⟨(crawlLoop cfg enc steps rest (i + 1)).processed + 1,
           (crawlLoop cfg enc steps rest (i + 1)).succeeded + 1,
           hi2 :: (crawlLoop cfg enc steps rest (i + 1)).items⟩
      | Option.none =>
          ⟨(crawlLoop cfg enc steps rest (i + 1)).processed + 1,
           (crawlLoop cfg enc steps rest (i + 1)).succeeded,
           (crawlLoop cfg enc steps rest (i + 1)).items⟩ := by
  conv_lhs => simp only [crawlLoop]
  rw [if_neg (by omega)]

/-- A required-field check fails exactly on an absent or `None` value. -/
lemma fieldPresent_false_iff (d : List (String × PyVal)) (f : String) :
    fieldPresent d f = false ↔
      (pyDictLookup d f = Option.none ∨ pyDictLookup d f = some PyVal.none) := by
  unfold fieldPresent
  cases h : pyDictLookup d f with
  | none => simp
  | some v => cases v <;> simp

/-- C8: `_validate_hot_list_item` rejects a raw item dict iff one of
`{sentence_id, word, position, hot_value, view_count}` is absent or `None`,
or `position` is not int-coercible or `≤ 0`, or `hot_value`/`view_count`
is not int-coercible or `< 0`, or the stringified, stripped `word` has
length `0` or above `200`; a rejected item yields no `HotListItem`
(`_process_hot_list_item` returns `None`), and in the crawl loop it counts
toward `items_processed` but not `items_success`. -/
theorem claim_C8_item_validation (d : List (String × PyVal)) :
    (validate_hot_list_item d = false ↔
      ((∃ f ∈ requiredFields,
          pyDictLookup d f = Option.none ∨ pyDictLookup d f = some PyVal.none) ∨
       (∀ n : Int, pyToInt (itemField d POSITION_FIELD) ≠ Except.ok n) ∨
       (∃ n : Int, pyToInt (itemField d POSITION_FIELD) = Except.ok n ∧ n ≤ 0) ∨
       (∀ n : Int, pyToInt (itemField d HOT_VALUE_FIELD) ≠ Except.ok n) ∨
       (∃ n : Int, pyToInt (itemField d HOT_VALUE_FIELD) = Except.ok n ∧ n < 0) ∨
       (∀ n : Int, pyToInt (itemField d VIEW_COUNT_FIELD) ≠ Except.ok n) ∨
       (∃ n : Int, pyToInt (itemField d VIEW_COUNT_FIELD) = Except.ok n ∧ n < 0) ∨
       (pyStrip (pyStr (itemField d WORD_FIELD))).length = 0 ∨
       (pyStrip (pyStr (itemField d WORD_FIELD))).length > 200)) ∧
    (validate_hot_list_item d = false →
      ∀ (cfg : CrawlConfig) (enc : String → PyVal → String → String) (vd : Option PyVal),
        process_hot_list_item cfg enc (PyVal.dict d) vd = Option.none) ∧
    (∀ (cfg : CrawlConfig) (enc : String → PyVal → String → String)
        (steps : Nat → ItemStep) (rest : List PyVal) (i : Nat),
      validate_hot_list_item d = false → i < cfg.max_items →
      (process_hot_list_item cfg enc (PyVal.dict d)
          (match steps i with
           | ItemStep.raises => Option.none
           | ItemStep.fetchResult r => r) = Option.none) →
      (crawlLoop cfg enc steps (PyVal.dict d :: rest) i).processed =
        (crawlLoop cfg enc steps rest (i + 1)).processed + 1 ∧
      (crawlLoop cfg enc steps (PyVal.dict d :: rest) i).succeeded =
        (crawlLoop cfg enc steps rest (i + 1)).succeeded) := by
  have hskip : validate_hot_list_item d = false →
      ∀ (cfg : CrawlConfig) (enc : String → PyVal → String → String) (vd : Option PyVal),
        process_hot_list_item cfg enc (PyVal.dict d) vd = Option.none := by
    intro hv cfg enc vd
    have hbody : process_item_body cfg enc (PyVal.dict d) vd =
        process_item_dict cfg enc d vd := rfl
    unfold process_hot_list_item
    rw [hbody]
    unfold process_item_dict
    rw [if_pos (by rw [hv]; exact Bool.false_ne_true)]
  refine ⟨?_, hskip, ?_⟩
  · by_cases hall : requiredFields.all (fun f => fieldPresent d f) = true
    · have hpresent : ∀ f ∈ requiredFields, fieldPresent d f = true :=
        List.all_eq_true.mp hall
      have hD1 : ¬ ∃ f ∈ requiredFields,
          pyDictLookup d f = Option.none ∨ pyDictLookup d f = some PyVal.none := by
        rintro ⟨f, hf, hcase⟩
        have h1 := hpresent f hf
        have h2 := (fieldPresent_false_iff d f).mpr hcase
        rw [h1] at h2
        simp at h2
      unfold validate_hot_list_item
      rw [if_pos hall]
      cases hp : pyToInt (itemField d POSITION_FIELD) with
      | error e =>
          simp only [hp]
          constructor
          · intro _
            exact Or.inr (Or.inl (fun n h => by cases h))
          · intro _
            trivial
      | ok p =>
          cases hh : pyToInt (itemField d HOT_VALUE_FIELD) with
          | error e =>
              simp only [hp, hh]
              constructor
              · intro _
                exact Or.inr (Or.inr (Or.inr (Or.inl (fun n h => by cases h))))
              · intro _
                trivial
          | ok h =>
              cases hv : pyToInt (itemField d VIEW_COUNT_FIELD) with
              | error e =>
                  simp only [hp, hh, hv]
                  constructor
                  · intro _
                    exact Or.inr (Or.inr (Or.inr (Or.inr (Or.inr
                      (Or.inl (fun n hx => by cases hx))))))
                  · intro _
                    trivial
              | ok v =>
                  simp only [hp, hh, hv]
                  by_cases hneg : p ≤ 0 ∨ h < 0 ∨ v < 0
                  · rw [if_pos (by
                      rcases hneg with h1 | h1 | h1
                      · simp [h1]
                      · simp [h1]
                      · simp [h1])]
                    constructor
                    · intro _
                      rcases hneg with h1 | h1 | h1
                      · exact Or.inr (Or.inr (Or.inl ⟨p, rfl, h1⟩))
                      · exact Or.inr (Or.inr (Or.inr (Or.inr (Or.inl ⟨h, rfl, h1⟩))))
                      · exact Or.inr (Or.inr (Or.inr (Or.inr (Or.inr (Or.inr
                          (Or.inl ⟨v, rfl, h1⟩))))))
                    · intro _
                      trivial
                  · push_neg at hneg
                    obtain ⟨hp0, hh0, hv0⟩ := hneg
                    rw [if_neg (by
                      simp only [Bool.or_eq_true, not_or, decide_eq_true_eq]
                      omega)]
                    by_cases htitle : (pyStrip (pyStr (itemField d WORD_FIELD))).length = 0 ∨
                        (pyStrip (pyStr (itemField d WORD_FIELD))).length > 200
                    · rw [if_pos (by
                        rcases htitle with h1 | h1
                        · simp [h1]
                        · simp [h1])]
                      constructor
                      · intro _
                        rcases htitle with h1 | h1
                        · exact Or.inr (Or.inr (Or.inr (Or.inr (Or.inr (Or.inr
                            (Or.inr (Or.inl h1)))))))
                        · exact Or.inr (Or.inr (Or.inr (Or.inr (Or.inr (Or.inr
                            (Or.inr (Or.inr h1)))))))
                      · intro _
                        trivial
                    · push_neg at htitle
                      obtain ⟨ht0, ht200⟩ := htitle
                      rw [if_neg (by
                        simp only [Bool.or_eq_true, not_or, decide_eq_true_eq]
                        omega)]
                      constructor
                      · intro habs
                        simp at habs
                      · rintro (hD | hD | hD | hD | hD | hD | hD | hD | hD)
                        · exact absurd hD hD1
                        · exact absurd rfl (hD p)
                        · obtain ⟨n, hn, hn0⟩ := hD
                          rw [Except.ok.injEq] at hn
                          exfalso
                          omega
                        · exact absurd rfl (hD h)
                        · obtain ⟨n, hn, hn0⟩ := hD
                          rw [Except.ok.injEq] at hn
                          exfalso
                          omega
                        · exact absurd rfl (hD v)
                        · obtain ⟨n, hn, hn0⟩ := hD
                          rw [Except.ok.injEq] at hn
                          exfalso
                          omega
                        · exfalso
                          omega
                        · exfalso
                          omega
    · have hfalse : validate_hot_list_item d = false := by
        unfold validate_hot_list_item
        rw [if_neg hall]
      rw [hfalse]
      have hex : ∃ f ∈ requiredFields, fieldPresent d f = false := by
        by_contra hno
        push_neg at hno
        refine hall (List.all_eq_true.mpr ?_)
        intro f hf
        have := hno f hf
        revert this
        cases fieldPresent d f <;> simp
      obtain ⟨f, hf, hfp⟩ := hex
      simp only [true_iff]
      exact Or.inl ⟨f, hf, (fieldPresent_false_iff d f).mp hfp⟩
  · intro cfg enc steps rest i hv hi hproc
    have hout : itemOutcome cfg enc steps i (PyVal.dict d) = Option.none := by
      unfold itemOutcome
      cases hs : steps i with
      | raises => rfl
      | fetchResult r =>
          rw [hs] at hproc
          exact hproc
    rw [crawlLoop_cons cfg enc steps (PyVal.dict d) rest i hi, hout]
    exact ⟨rfl, rfl⟩

/-- Witness for C8 on an item missing `word`, `position`, `hot_value`,
`view_count`. -/
theorem claim_C8_item_validation_witness :
    validate_hot_list_item [(SENTENCE_ID_FIELD, PyVal.str "1")] = false ∧
    process_hot_list_item ⟨"https://hot", "https://v", 5, true, false, 3⟩
      (fun b _ _ => b) (PyVal.dict [(SENTENCE_ID_FIELD, PyVal.str "1")]) Option.none
      = Option.none := by
  have h := claim_C8_item_validation [(SENTENCE_ID_FIELD, PyVal.str "1")]
  have hv : validate_hot_list_item [(SENTENCE_ID_FIELD, PyVal.str "1")] = false := by decide
  exact ⟨hv, h.2.1 hv ⟨"https://hot", "https://v", 5, true, false, 3⟩ (fun b _ _ => b)
    Option.none⟩

/-- The loop processes one item per index until the cap or the list end:
`min (max_items - i) (length)` items from start index `i`. -/
lemma crawlLoop_processed (cfg : CrawlConfig) (enc : String → PyVal → String → String)
    (steps : Nat → ItemStep) :
    ∀ (l : List PyVal) (i : Nat),
      (crawlLoop cfg enc steps l i).processed = min (cfg.max_items - i) l.length := by
  intro l
  induction l with
  | nil => intro i; simp [crawlLoop]
  | cons itm rest ih =>
      intro i
      by_cases hi : i ≥ cfg.max_items
      · have hstop : crawlLoop cfg enc steps (itm :: rest) i = ⟨0, 0, []⟩ := by
          conv_lhs => simp only [crawlLoop]
          rw [if_pos hi]
        rw [hstop]
        show 0 = min (cfg.max_items - i) (itm :: rest).length
        have : cfg.max_items - i = 0 := by omega
        rw [this]
        simp
      · cases ho : itemOutcome cfg enc steps i itm with
        | some hi2 =>
            rw [crawlLoop_cons cfg enc steps itm rest i (by omega), ho]
            show (crawlLoop cfg enc steps rest (i + 1)).processed + 1 = _
            rw [ih (i + 1)]
            simp only [List.length_cons]
            omega
        | none =>
            rw [crawlLoop_cons cfg enc steps itm rest i (by omega), ho]
            show (crawlLoop cfg enc steps rest (i + 1)).processed + 1 = _
            rw [ih (i + 1)]
            simp only [List.length_cons]
            omega

/-- One unfolding step of the failure counter below the item cap. -/
lemma crawlFailures_cons (cfg : CrawlConfig) (enc : String → PyVal → String → String)
    (steps : Nat → ItemStep) (itm : PyVal) (rest : List PyVal) (i : Nat)
    (hi : i < cfg.max_items) :
    crawlFailures cfg enc steps (itm :: rest) i =
      (match itemOutcome cfg enc steps i itm with
       | some _ => 0
       | Option.none => 1) + crawlFailures cfg enc steps rest (i + 1) := by
  conv_lhs => simp only [crawlFailures]
  rw [if_neg (by omega)]

/-- Counter equation of the loop: every processed item either succeeded or
is counted as a failure. -/
lemma crawlLoop_counter_eq (cfg : CrawlConfig) (enc : String → PyVal → String → String)
    (steps : Nat → ItemStep) :
    ∀ (l : List PyVal) (i : Nat),
      (crawlLoop cfg enc steps l i).processed =
        (crawlLoop cfg enc steps l i).succeeded + crawlFailures cfg enc steps l i := by
  intro l
  induction l with
  | nil => intro i; simp [crawlLoop, crawlFailures]
  | cons itm rest ih =>
      intro i
      by_cases hi : i ≥ cfg.max_items
      · have hstop : crawlLoop cfg enc steps (itm :: rest) i = ⟨0, 0, []⟩ := by
          conv_lhs => simp only [crawlLoop]
          rw [if_pos hi]
        have hstop2 : crawlFailures cfg enc steps (itm :: rest) i = 0 := by
          conv_lhs => simp only [crawlFailures]
          rw [if_pos hi]
        rw [hstop, hstop2]
      · cases ho : itemOutcome cfg enc steps i itm with
        | some hi2 =>
            rw [crawlLoop_cons cfg enc steps itm rest i (by omega), ho,
              crawlFailures_cons cfg enc steps itm rest i (by omega), ho]
            show (crawlLoop cfg enc steps rest (i + 1)).processed + 1 =
              (crawlLoop cfg enc steps rest (i + 1)).succeeded + 1 +
                (0 + crawlFailures cfg enc steps rest (i + 1))
            rw [ih (i + 1)]
            omega
        | none =>
            rw [crawlLoop_cons cfg enc steps itm rest i (by omega), ho,
              crawlFailures_cons cfg enc steps itm rest i (by omega), ho]
            show (crawlLoop cfg enc steps rest (i + 1)).processed + 1 =
              (crawlLoop cfg enc steps rest (i + 1)).succeeded +
                (1 + crawlFailures cfg enc steps rest (i + 1))
            rw [ih (i + 1)]
            omega

/-- On a well-formed nonempty payload the crawl reaches the item loop and
returns a successful result built from it. -/
lemma crawl_payload (cfg : CrawlConfig) (enc : String → PyVal → String → String)
    (steps : Nat → ItemStep) (a : PyVal) (l : List PyVal) :
    crawl cfg enc (Except.ok (mkHotListPayload (a :: l))) steps =
      ⟨true, some ⟨(crawlLoop cfg enc steps (selectItems cfg (a :: l)) 0).items, 0⟩,
       Option.none,
       (crawlLoop cfg enc steps (selectItems cfg (a :: l)) 0).processed,
       (crawlLoop cfg enc steps (selectItems cfg (a :: l)) 0).succeeded⟩ := rfl

/-- C1 counterexample: a payload with `M = 1` item under
`skip_top_item = true` and `max_items = 5`.  The source only drops the
pinned item when more than one item exists (`douyin_spider.py` line 195),
so the orchestrator processes `1` item, not `min(maxItems, M-1) = 0` as the
claim requires for every `M ≥ 1`. -/
theorem claim_C1_counterexample :
    (⟨"https://hot", "https://v", 5, true, false, 3⟩ : CrawlConfig).skip_top_item = true ∧
    (crawl ⟨"https://hot", "https://v", 5, true, false, 3⟩ (fun b _ _ => b)
      (Except.ok (mkHotListPayload [PyVal.dict [(SENTENCE_ID_FIELD, PyVal.str "1"),
        (WORD_FIELD, PyVal.str "w"), (POSITION_FIELD, PyVal.int 1),
        (HOT_VALUE_FIELD, PyVal.int 2), (VIEW_COUNT_FIELD, PyVal.int 3)]]))
      (fun _ => ItemStep.fetchResult Option.none)).items_processed = 1 ∧
    min 5 (1 - 1) = 0 ∧ (1 : Nat) ≠ 0 := by
  refine ⟨rfl, ?_, by decide, by decide⟩
  decide

/-- C1 (amended): for a synthetic payload with `M ≥ 2` items and
`skip_top_item = true`, the orchestrator processes exactly
`min(max_items, M - 1)` items; when `M = 1` the pinned item is not skipped
and `min(max_items, 1)` items are processed; and in every such run
`items_processed = items_success + (validation failures + per-item
processing exceptions)`, the crawl reporting success. -/
theorem claim_C1_crawl_counts (cfg : CrawlConfig)
    (enc : String → PyVal → String → String) (items : List PyVal)
    (steps : Nat → ItemStep) (hskip : cfg.skip_top_item = true) (hne : items ≠ []) :
    (crawl cfg enc (Except.ok (mkHotListPayload items)) steps).success = true ∧
    (2 ≤ items.length →
      (crawl cfg enc (Except.ok (mkHotListPayload items)) steps).items_processed =
        min cfg.max_items (items.length - 1)) ∧
    (items.length = 1 →
      (crawl cfg enc (Except.ok (mkHotListPayload items)) steps).items_processed =
        min cfg.max_items 1) ∧
    (crawl cfg enc (Except.ok (mkHotListPayload items)) steps).items_processed =
      (crawl cfg enc (Except.ok (mkHotListPayload items)) steps).items_success +
        crawlFailures cfg enc steps (selectItems cfg items) 0 := by
  obtain ⟨a, l, rfl⟩ : ∃ a l2, items = a :: l2 := by
    cases items with
    | nil => exact absurd rfl hne
    | cons a l => exact ⟨a, l, rfl⟩
  rw [crawl_payload]
  refine ⟨rfl, ?_, ?_, ?_⟩
  · intro h2
    have hsel : selectItems cfg (a :: l) = l := by
      unfold selectItems
      rw [if_pos, List.drop_one, List.tail_cons]
      rw [hskip, Bool.true_and, decide_eq_true_eq]
      omega
    show (crawlLoop cfg enc steps (selectItems cfg (a :: l)) 0).processed = _
    rw [hsel, crawlLoop_processed]
    simp only [List.length_cons, Nat.add_sub_cancel, Nat.sub_zero]
  · intro h1
    have hl : l = [] := by
      cases l with
      | nil => rfl
      | cons b l2 =>
          simp only [List.length_cons] at h1
          omega
    subst hl
    have hsel : selectItems cfg [a] = [a] := by
      unfold selectItems
      rw [if_neg]
      simp
    show (crawlLoop cfg enc steps (selectItems cfg [a]) 0).processed = _
    rw [hsel, crawlLoop_processed]
    simp
  · exact crawlLoop_counter_eq cfg enc steps (selectItems cfg (a :: l)) 0

/-- Witness for C1 on a three-item payload (second item invalid) with
`skip_top_item = true` and `max_items = 5`. -/
theorem claim_C1_crawl_counts_witness :
    (⟨"https://hot", "https://v", 5, true, false, 3⟩ : CrawlConfig).skip_top_item = true ∧
    ([PyVal.dict [(SENTENCE_ID_FIELD, PyVal.str "1"), (WORD_FIELD, PyVal.str "w1"),
        (POSITION_FIELD, PyVal.int 1), (HOT_VALUE_FIELD, PyVal.int 2),
        (VIEW_COUNT_FIELD, PyVal.int 3)],
      PyVal.dict [(SENTENCE_ID_FIELD, PyVal.str "2")],
      PyVal.dict [(SENTENCE_ID_FIELD, PyVal.str "3"), (WORD_FIELD, PyVal.str "w3"),
        (POSITION_FIELD, PyVal.int 3), (HOT_VALUE_FIELD, PyVal.int 2),
        (VIEW_COUNT_FIELD, PyVal.int 3)]] : List PyVal) ≠ [] ∧
    (crawl ⟨"https://hot", "https://v", 5, true, false, 3⟩ (fun b _ _ => b)
      (Except.ok (mkHotListPayload
        [PyVal.dict [(SENTENCE_ID_FIELD, PyVal.str "1"), (WORD_FIELD, PyVal.str "w1"),
          (POSITION_FIELD, PyVal.int 1), (HOT_VALUE_FIELD, PyVal.int 2),
          (VIEW_COUNT_FIELD, PyVal.int 3)],
        PyVal.dict [(SENTENCE_ID_FIELD, PyVal.str "2")],
        PyVal.dict [(SENTENCE_ID_FIELD, PyVal.str "3"), (WORD_FIELD, PyVal.str "w3"),
          (POSITION_FIELD, PyVal.int 3), (HOT_VALUE_FIELD, PyVal.int 2),
          (VIEW_COUNT_FIELD, PyVal.int 3)]]))
      (fun _ => ItemStep.fetchResult Option.none)).items_processed = min 5 (3 - 1) := by
  have h := claim_C1_crawl_counts ⟨"https://hot", "https://v", 5, true, false, 3⟩
    (fun b _ _ => b)
    [PyVal.dict [(SENTENCE_ID_FIELD, PyVal.str "1"), (WORD_FIELD, PyVal.str "w1"),
      (POSITION_FIELD, PyVal.int 1), (HOT_VALUE_FIELD, PyVal.int 2),
      (VIEW_COUNT_FIELD, PyVal.int 3)],
    PyVal.dict [(SENTENCE_ID_FIELD, PyVal.str "2")],
    PyVal.dict [(SENTENCE_ID_FIELD, PyVal.str "3"), (WORD_FIELD, PyVal.str "w3"),
      (POSITION_FIELD, PyVal.int 3), (HOT_VALUE_FIELD, PyVal.int 2),
      (VIEW_COUNT_FIELD, PyVal.int 3)]]
    (fun _ => ItemStep.fetchResult Option.none) rfl (List.cons_ne_nil _ _)
  exact ⟨rfl, List.cons_ne_nil _ _, h.2.1 (by decide)⟩

/-- A validated item's three numeric fields are int-coercible. -/
lemma validate_true_ints (d : List (String × PyVal))
    (h : validate_hot_list_item d = true) :
    (∃ p, pyToInt (itemField d POSITION_FIELD) = Except.ok p) ∧
    (∃ hv, pyToInt (itemField d HOT_VALUE_FIELD) = Except.ok hv) ∧
    (∃ vv, pyToInt (itemField d VIEW_COUNT_FIELD) = Except.ok vv) := by
  unfold validate_hot_list_item at h
  by_cases hall : requiredFields.all (fun f => fieldPresent d f) = true
  · rw [if_pos hall] at h
    cases hp : pyToInt (itemField d POSITION_FIELD) with
    | error e =>
        rw [hp] at h
        simp at h
    | ok p =>
        cases hh : pyToInt (itemField d HOT_VALUE_FIELD) with
        | error e =>
            rw [hp, hh] at h
            simp at h
        | ok hv =>
            cases hvv : pyToInt (itemField d VIEW_COUNT_FIELD) with
            | error e =>
                rw [hp, hh, hvv] at h
                simp at h
            | ok vv => exact ⟨⟨p, rfl⟩, ⟨hv, rfl⟩, ⟨vv, rfl⟩⟩
  · rw [if_neg hall] at h
    simp at h

/-- Processing a validated item whose video-detail fetch returned `None`
yields the item with no articles, its URL being the hot-list page URL. -/
lemma process_item_fetch_none (cfg : CrawlConfig)
    (enc : String → PyVal → String → String) (d : List (String × PyVal))
    (hval : validate_hot_list_item d = true) :
    ∃ hi, process_hot_list_item cfg enc (PyVal.dict d) Option.none = some hi ∧
      hi.articles = [] ∧
      hi.url = hot_list_page_url cfg enc (itemField d SENTENCE_ID_FIELD)
        (clean_text (itemField d WORD_FIELD)) := by
  obtain ⟨⟨p, hp⟩, ⟨hv2, hh⟩, ⟨vv, hvv⟩⟩ := validate_true_ints d hval
  refine ⟨⟨p, clean_text (itemField d WORD_FIELD),
    hot_list_page_url cfg enc (itemField d SENTENCE_ID_FIELD)
      (clean_text (itemField d WORD_FIELD)), hv2, vv, []⟩, ?_, rfl, rfl⟩
  have hbody : process_item_body cfg enc (PyVal.dict d) Option.none =
      process_item_dict cfg enc d Option.none := rfl
  unfold process_hot_list_item
  rw [hbody]
  unfold process_item_dict
  rw [if_neg (by rw [hval]; simp), hp, hh, hvv]
  rfl

/-- A successful item at in-range index `j` of the processed list lands in
the collected items. -/
lemma crawlLoop_mem (cfg : CrawlConfig) (enc : String → PyVal → String → String)
    (steps : Nat → ItemStep) :
    ∀ (l : List PyVal) (i j : Nat) (itm : PyVal) (hi2 : HotListItem),
      l.get? j = some itm → i + j < cfg.max_items →
      itemOutcome cfg enc steps (i + j) itm = some hi2 →
      hi2 ∈ (crawlLoop cfg enc steps l i).items := by
  intro l
  induction l with
  | nil => intro i j itm hi2 hget; simp at hget
  | cons a rest ih =>
      intro i j itm hi2 hget hlt hout
      cases j with
      | zero =>
          have ha : itm = a := by
            simp only [List.get?] at hget
            exact (Option.some.injEq _ _).mp hget.symm
          subst ha
          rw [crawlLoop_cons cfg enc steps itm rest i (by omega)]
          rw [Nat.add_zero] at hout
          rw [hout]
          show hi2 ∈ hi2 :: (crawlLoop cfg enc steps rest (i + 1)).items
          exact List.mem_cons_self _ _
      | succ j2 =>
          have hget2 : rest.get? j2 = some itm := by
            simpa only [List.get?] using hget
          have hmem := ih (i + 1) j2 itm hi2 hget2 (by omega)
            (by rw [show i + 1 + j2 = i + (j2 + 1) from by omega]; exact hout)
          rw [crawlLoop_cons cfg enc steps a rest i (by omega)]
          cases ho : itemOutcome cfg enc steps i a with
          | some hi3 =>
              show hi2 ∈ hi3 :: (crawlLoop cfg enc steps rest (i + 1)).items
              exact List.mem_cons_of_mem _ hmem
          | none =>
              show hi2 ∈ (crawlLoop cfg enc steps rest (i + 1)).items
              exact hmem

/-- C2 counterexample: `_fetch_video_detail`, configured with
`video_detail_max_retries = 3`, invokes its network attempt exactly once
even when every attempt raises, because the `_fetch` body catches all
exceptions and returns `None` before the retry wrapper can see a failure —
whereas the same retry policy applied to a genuinely raising operation
performs 3 invocations.  The claimed independent per-item retying of
video-detail failures therefore does not happen. -/
theorem claim_C2_counterexample :
    (fetch_video_detail 3 (fun _ => FetchOutcome.exception "boom")).calls = 1 ∧
    (fetch_video_detail 3 (fun _ => FetchOutcome.exception "boom")).result =
      RetryResult.ok Option.none ∧
    (retry_on_failure (fun _ => (Except.error "boom" : Attempt String PyVal)) 3).calls = 3 ∧
    (1 : Nat) ≠ 3 :=
  ⟨rfl, rfl, rfl, by decide⟩

/-- C2 (amended): a failing video-detail fetch is attempted exactly once —
the `_fetch` body swallows timeouts, empty bodies and exceptions and
returns `None`, so the configured video-detail retry policy never
re-invokes it — and the affected item is degraded to "no video": it still
appears in the resulting `HotListResponse` with `articles = []`, keeping
its hot-list-derived URL, and the crawl still returns `success = true`. -/
theorem claim_C2_video_detail_degradation :
    (∀ (maxR : Nat) (attempts : Nat → FetchOutcome), 1 ≤ maxR →
      (fetch_video_detail maxR attempts).calls = 1 ∧
      ((∀ v, attempts 0 ≠ FetchOutcome.payload v) →
        (fetch_video_detail maxR attempts).result = RetryResult.ok Option.none)) ∧
    (∀ (cfg : CrawlConfig) (enc : String → PyVal → String → String)
        (d : List (String × PyVal)), validate_hot_list_item d = true →
      ∃ hi, process_hot_list_item cfg enc (PyVal.dict d) Option.none = some hi ∧
        hi.articles = [] ∧
        hi.url = hot_list_page_url cfg enc (itemField d SENTENCE_ID_FIELD)
          (clean_text (itemField d WORD_FIELD))) ∧
    (∀ (cfg : CrawlConfig) (enc : String → PyVal → String → String)
        (steps : Nat → ItemStep) (items : List PyVal) (j : Nat)
        (d : List (String × PyVal)),
      items ≠ [] →
      (selectItems cfg items).get? j = some (PyVal.dict d) →
      j < cfg.max_items →
      steps j = ItemStep.fetchResult Option.none →
      validate_hot_list_item d = true →
      (crawl cfg enc (Except.ok (mkHotListPayload items)) steps).success = true ∧
      ∃ resp, (crawl cfg enc (Except.ok (mkHotListPayload items)) steps).data = some resp ∧
        ∃ hi ∈ resp.items, hi.articles = [] ∧
          hi.url = hot_list_page_url cfg enc (itemField d SENTENCE_ID_FIELD)
            (clean_text (itemField d WORD_FIELD))) := by
  refine ⟨?_, fun cfg enc d hval => process_item_fetch_none cfg enc d hval, ?_⟩
  · intro maxR attempts h1
    obtain ⟨r, rfl⟩ : ∃ r, maxR = r + 1 := ⟨maxR - 1, by omega⟩
    refine ⟨rfl, fun hne => ?_⟩
    cases ha : attempts 0 with
    | timeout =>
        show RetryResult.ok (match attempts 0 with
          | FetchOutcome.payload v => some v
          | _ => Option.none) = RetryResult.ok Option.none
        rw [ha]
    | emptyBody =>
        show RetryResult.ok (match attempts 0 with
          | FetchOutcome.payload v => some v
          | _ => Option.none) = RetryResult.ok Option.none
        rw [ha]
    | exception msg =>
        show RetryResult.ok (match attempts 0 with
          | FetchOutcome.payload v => some v
          | _ => Option.none) = RetryResult.ok Option.none
        rw [ha]
    | payload v => exact absurd ha (hne v)
  · intro cfg enc steps items j d hne hget hj hsteps hval
    obtain ⟨a, l, rfl⟩ : ∃ a l2, items = a :: l2 := by
      cases items with
      | nil => exact absurd rfl hne
      | cons a l => exact ⟨a, l, rfl⟩
    rw [crawl_payload]
    refine ⟨rfl, ⟨_, rfl, ?_⟩⟩
    obtain ⟨hi, hproc, hart, hurl⟩ := process_item_fetch_none cfg enc d hval
    have hout : itemOutcome cfg enc steps (0 + j) (PyVal.dict d) = some hi := by
      unfold itemOutcome
      rw [Nat.zero_add, hsteps]
      exact hproc
    exact ⟨hi, crawlLoop_mem cfg enc steps (selectItems cfg (a :: l)) 0 j
      (PyVal.dict d) hi hget (by omega) hout, hart, hurl⟩

/-- Witness for C2: three valid items, every video-detail fetch failing;
item 2 (index 1) is checked to appear degraded. -/
theorem claim_C2_video_detail_degradation_witness :
    1 ≤ 3 ∧
    (fetch_video_detail 3 (fun _ => FetchOutcome.timeout)).calls = 1 ∧
    (crawl ⟨"https://hot", "https://v", 5, false, false, 3⟩ (fun b _ _ => b)
      (Except.ok (mkHotListPayload
        [PyVal.dict [(SENTENCE_ID_FIELD, PyVal.str "1"), (WORD_FIELD, PyVal.str "w1"),
          (POSITION_FIELD, PyVal.int 1), (HOT_VALUE_FIELD, PyVal.int 2),
          (VIEW_COUNT_FIELD, PyVal.int 3)],
        PyVal.dict [(SENTENCE_ID_FIELD, PyVal.str "2"), (WORD_FIELD, PyVal.str "w2"),
          (POSITION_FIELD, PyVal.int 2), (HOT_VALUE_FIELD, PyVal.int 2),
          (VIEW_COUNT_FIELD, PyVal.int 3)],
        PyVal.dict [(SENTENCE_ID_FIELD, PyVal.str "3"), (WORD_FIELD, PyVal.str "w3"),
          (POSITION_FIELD, PyVal.int 3), (HOT_VALUE_FIELD, PyVal.int 2),
          (VIEW_COUNT_FIELD, PyVal.int 3)]]))
      (fun _ => ItemStep.fetchResult Option.none)).success = true ∧
    (∃ resp, (crawl ⟨"https://hot", "https://v", 5, false, false, 3⟩ (fun b _ _ => b)
      (Except.ok (mkHotListPayload
        [PyVal.dict [(SENTENCE_ID_FIELD, PyVal.str "1"), (WORD_FIELD, PyVal.str "w1"),
          (POSITION_FIELD, PyVal.int 1), (HOT_VALUE_FIELD, PyVal.int 2),
          (VIEW_COUNT_FIELD, PyVal.int 3)],
        PyVal.dict [(SENTENCE_ID_FIELD, PyVal.str "2"), (WORD_FIELD, PyVal.str "w2"),
          (POSITION_FIELD, PyVal.int 2), (HOT_VALUE_FIELD, PyVal.int 2),
          (VIEW_COUNT_FIELD, PyVal.int 3)],
        PyVal.dict [(SENTENCE_ID_FIELD, PyVal.str "3"), (WORD_FIELD, PyVal.str "w3"),
          (POSITION_FIELD, PyVal.int 3), (HOT_VALUE_FIELD, PyVal.int 2),
          (VIEW_COUNT_FIELD, PyVal.int 3)]]))
      (fun _ => ItemStep.fetchResult Option.none)).data = some resp ∧
      ∃ hi ∈ resp.items, hi.articles = [] ∧
        hi.url = hot_list_page_url ⟨"https://hot", "https://v", 5, false, false, 3⟩
          (fun b _ _ => b)
          (itemField [(SENTENCE_ID_FIELD, PyVal.str "2"), (WORD_FIELD, PyVal.str "w2"),
            (POSITION_FIELD, PyVal.int 2), (HOT_VALUE_FIELD, PyVal.int 2),
            (VIEW_COUNT_FIELD, PyVal.int 3)] SENTENCE_ID_FIELD)
          (clean_text (itemField [(SENTENCE_ID_FIELD, PyVal.str "2"),
            (WORD_FIELD, PyVal.str "w2"), (POSITION_FIELD, PyVal.int 2),
            (HOT_VALUE_FIELD, PyVal.int 2), (VIEW_COUNT_FIELD, PyVal.int 3)]
            WORD_FIELD))) := by
  have h := (claim_C2_video_detail_degradation).2.2
    ⟨"https://hot", "https://v", 5, false, false, 3⟩ (fun b _ _ => b)
    (fun _ => ItemStep.fetchResult Option.none)
    [PyVal.dict [(SENTENCE_ID_FIELD, PyVal.str "1"), (WORD_FIELD, PyVal.str "w1"),
      (POSITION_FIELD, PyVal.int 1), (HOT_VALUE_FIELD, PyVal.int 2),
      (VIEW_COUNT_FIELD, PyVal.int 3)],
    PyVal.dict [(SENTENCE_ID_FIELD, PyVal.str "2"), (WORD_FIELD, PyVal.str "w2"),
      (POSITION_FIELD, PyVal.int 2), (HOT_VALUE_FIELD, PyVal.int 2),
      (VIEW_COUNT_FIELD, PyVal.int 3)],
    PyVal.dict [(SENTENCE_ID_FIELD, PyVal.str "3"), (WORD_FIELD, PyVal.str "w3"),
      (POSITION_FIELD, PyVal.int 3), (HOT_VALUE_FIELD, PyVal.int 2),
      (VIEW_COUNT_FIELD, PyVal.int 3)]] 1
    [(SENTENCE_ID_FIELD, PyVal.str "2"), (WORD_FIELD, PyVal.str "w2"),
      (POSITION_FIELD, PyVal.int 2), (HOT_VALUE_FIELD, PyVal.int 2),
      (VIEW_COUNT_FIELD, PyVal.int 3)]
    (List.cons_ne_nil _ _) rfl (by decide) rfl (by decide)
  have h1 := (claim_C2_video_detail_degradation).1 3 (fun _ => FetchOutcome.timeout)
    (by decide)
  exact ⟨by decide, h1.1, h.1, h.2⟩
